import Mathlib

/-!
Verification development for the Sales Navigator scraping server.

The definitions below are shallow embeddings of the JavaScript sources:
JS objects are modelled as insertion-ordered association lists from field
names to string values, the jobs cache as an association list from job id
to job object, and the file system as an association list from path to
contents.  Asynchronous control flow is modelled by explicit state passing
and by scripting the outcomes of the environment (browser, network).
-/

namespace SalesNav

/-! ### JS objects as insertion-ordered association lists

A JS object is a list of key/value pairs; assigning to an existing key
updates the value in place (keeping the key's insertion position), and
assigning a fresh key appends it.  This mirrors JS property order.
-/

/-- Property lookup in an insertion-ordered association list: first pair
with the key (a JS object never holds a key twice). -/
def alGet {α : Type} : List (String × α) → String → Option α
  | [], _ => none
  | p :: rest, k => if p.1 = k then some p.2 else alGet rest k

/-- Property assignment, JS semantics: an existing key keeps its position
and gets the new value, a fresh key is appended. -/
def alSet {α : Type} : List (String × α) → String → α → List (String × α)
  | [], k, v => [(k, v)]
  | p :: rest, k, v =>
      if p.1 = k then (k, v) :: rest else p :: alSet rest k v

/-- A JS object whose values are strings (sufficient for the fields the
claims are about). -/
abbrev Obj := List (String × String)

/-- Property lookup on a JS object. -/
def objGet (o : Obj) (k : String) : Option String := alGet o k

/-- Property assignment on a JS object. -/
def objSet (o : Obj) (k v : String) : Obj := alSet o k v

/-- Object.assign target updates: fold the updates over the object in
order. -/
def objAssign (o : Obj) (updates : List (String × String)) : Obj :=
  updates.foldl (fun acc kv => objSet acc kv.1 kv.2) o

/-- Keys of an object, in insertion order (Object.keys). -/
def objKeys (o : Obj) : List String := o.map Prod.fst

/-- Last value assigned to key k by a list of updates (the value that
survives Object.assign when the same key occurs several times). -/
def lastVal : List (String × String) → String → Option String
  | [], _ => none
  | u :: us, k =>
      match lastVal us k with
      | some v => some v
      | none => if u.1 = k then some u.2 else none

/-! ### Job store (src/utils/jobsManager.js)

A job object is an Obj; the cache maps job ids to job objects.  JS
truthiness of the id field: present and nonempty.
-/

/-- The in-memory jobs cache, keyed by job id. -/
abbrev Cache := List (String × Obj)

/-- Cache lookup (jobsCache[jobId], null when absent). -/
def cacheGet (c : Cache) (k : String) : Option Obj := alGet c k

/-- Cache assignment (jobsCache[k] = v), same in-place semantics as objSet. -/
def cacheSet (c : Cache) (k : String) (v : Obj) : Cache := alSet c k v

/-- Truthiness of job.id (JS: a missing or empty id field is falsy). -/
def truthyId (job : Obj) : Bool :=
  match objGet job "id" with
  | some s => s ≠ ""
  | none => false

/-- saveJob (jobsManager.js lines 68-75): throws on a falsy id, otherwise
persists the job and stores it in the cache under job.id.  Disk content is
not modelled separately: saveJob's observable effect on later reads is the
cache update. -/
def saveJob (c : Cache) (job : Obj) : Except String Cache :=
  if truthyId job then
    .ok (cacheSet c (objGet job "id").get! job)
  else
    .error "Invalid job object"

/-- updateJob (jobsManager.js lines 156-161): a falsy jobId returns with no
effect; otherwise Object.assign merges the updates onto the cached record
(an empty object when absent) and saveJob persists the result.  The merge
mutates the cached object in place, so the entry under jobId (when present)
also holds the merged object. -/
def updateJob (c : Cache) (jobId : String) (updates : List (String × String)) :
    Except String Cache :=
  if jobId = "" then .ok c
  else
    match cacheGet c jobId with
    | some cached =>
        let merged := objAssign cached updates
        saveJob (cacheSet c jobId merged) merged
    | none =>
        let merged := objAssign [] updates
        saveJob c merged

/-! ### getJobs aliasing (jobsManager.js lines 126-128)

getJobs returns the jobsCache object itself, not a copy.  To state what
aliasing means observably we model the one mutable collection explicitly:
a heap of map objects addressed by references, with the module-level
jobsCache being one fixed reference.  getJobs returns that reference;
getJob reads through it.
-/

/-- State of the jobsManager module: a heap of map objects and the
reference that the module-level jobsCache binding holds. -/
structure JMState where
  heap : Nat → Cache
  cacheRef : Nat

/-- getJobs (line 127): return jobsCache — the reference itself, not a
copy of the collection. -/
def getJobsRef (s : JMState) : Nat := s.cacheRef

/-- getJob (lines 135-137): look the id up in the cache collection. -/
def getJob (s : JMState) (jobId : String) : Option Obj :=
  cacheGet (s.heap s.cacheRef) jobId

/-- A caller mutating a map it holds a reference to (for example
jobs[jobId] = job in scrapeRoutes.js line 679, where jobs is the value
returned by getJobs). -/
def mutateThrough (s : JMState) (r : Nat) (k : String) (v : Obj) : JMState :=
  { s with heap := fun n => if n = r then cacheSet (s.heap n) k v else s.heap n }

/-- A jobsManager state whose cache is empty, used as a concrete starting
point. -/
def emptyJM : JMState := { heap := fun _ => [], cacheRef := 0 }

/-! ### File system model

Files are an association list from path to contents; directories are a
list of paths.  This is what the CSV writer's fs calls observe.
-/

/-- A file system: file contents by path, plus the set of directories. -/
structure FS where
  files : List (String × String)
  dirs : List String
deriving DecidableEq

/-- existsSync for a file path. -/
def FS.fileExists (fs : FS) (p : String) : Bool :=
  fs.files.any (fun q => q.1 = p)

/-- Read a file's contents (none when absent). -/
def FS.read (fs : FS) (p : String) : Option String := alGet fs.files p

/-- fs.mkdir with recursive: true (idempotent). -/
def FS.mkdirp (fs : FS) (d : String) : FS :=
  if fs.dirs.contains d then fs else { fs with dirs := fs.dirs ++ [d] }

/-- fs.writeFile: create or overwrite. -/
def FS.writeFile (fs : FS) (p c : String) : FS :=
  { fs with files := alSet fs.files p c }

/-- fs.appendFile: create or append at the end. -/
def FS.appendFile (fs : FS) (p c : String) : FS :=
  match alGet fs.files p with
  | some old => { fs with files := alSet fs.files p (old ++ c) }
  | none => { fs with files := fs.files ++ [(p, c)] }

/-- path.dirname: the path up to the last slash ('.' when there is none). -/
def dirname (p : String) : String :=
  match p.data.reverse.dropWhile (fun c => c ≠ '/') with
  | [] => "."
  | _ :: rest => String.mk rest.reverse

/-! ### CSV writer (utils/saveProfilesCsv.js) -/

/-- A CSV column: the row field it reads and the header label it prints. -/
structure Column where
  key : String
  header : String
deriving DecidableEq

/-- Base columns from SignalHire (saveProfilesCsv.js lines 15-23). -/
def BASE_COLUMNS : List Column :=
  [⟨"name", "Name"⟩, ⟨"first_name", "First Name"⟩, ⟨"last_name", "Last Name"⟩,
   ⟨"title", "Title"⟩, ⟨"company", "Company"⟩, ⟨"person_location", "Location"⟩,
   ⟨"person_title", "LinkedIn URL"⟩]

/-- Canonical columns with the single domain column. -/
def EXT_DOMAIN : List Column := BASE_COLUMNS ++ [⟨"domain", "Website"⟩]

/-- Canonical columns with domain and Email. -/
def EXT_DOMAIN_EMAIL : List Column := EXT_DOMAIN ++ [⟨"Email", "Email"⟩]

/-- Base columns plus Email only. -/
def EXT_EMAIL : List Column := BASE_COLUMNS ++ [⟨"Email", "Email"⟩]

/-- ASCII lower-casing of one character (the header strings this model
lower-cases are ASCII). -/
def charLower (c : Char) : Char :=
  if c = 'A' then 'a' else if c = 'B' then 'b' else if c = 'C' then 'c'
  else if c = 'D' then 'd' else if c = 'E' then 'e' else if c = 'F' then 'f'
  else if c = 'G' then 'g' else if c = 'H' then 'h' else if c = 'I' then 'i'
  else if c = 'J' then 'j' else if c = 'K' then 'k' else if c = 'L' then 'l'
  else if c = 'M' then 'm' else if c = 'N' then 'n' else if c = 'O' then 'o'
  else if c = 'P' then 'p' else if c = 'Q' then 'q' else if c = 'R' then 'r'
  else if c = 'S' then 's' else if c = 'T' then 't' else if c = 'U' then 'u'
  else if c = 'V' then 'v' else if c = 'W' then 'w' else if c = 'X' then 'x'
  else if c = 'Y' then 'y' else if c = 'Z' then 'z' else c

/-- String.prototype.toLowerCase (ASCII range). -/
def lowerStr (s : String) : String := String.mk (s.data.map charLower)

/-- Whitespace characters stripped by trim. -/
def isWSChar (c : Char) : Bool := c = ' ' || c = '\t' || c = '\r' || c = '\n'

/-- Trim on character lists. -/
def trimChars (l : List Char) : List Char :=
  ((l.dropWhile isWSChar).reverse.dropWhile isWSChar).reverse

/-- String.prototype.trim. -/
def trimStr (s : String) : String := String.mk (trimChars s.data)

/-- Replacement of every CRLF or LF by a single space (the regex
of esc, saveProfilesCsv.js line 34; a lone CR is not matched). -/
def collapseNewlines : List Char → List Char
  | [] => []
  | '\r' :: '\n' :: rest => ' ' :: collapseNewlines rest
  | '\n' :: rest => ' ' :: collapseNewlines rest
  | c :: rest => c :: collapseNewlines rest

/-- Doubling of quote characters (esc's replace of quote by two quotes). -/
def escQuotes : List Char → List Char
  | [] => []
  | c :: rest =>
      if c = '"' then '"' :: '"' :: escQuotes rest else c :: escQuotes rest

/-- esc (saveProfilesCsv.js lines 30-37): null becomes two quotes,
otherwise the value is stripped of NUL characters, newlines are collapsed
to spaces, the result is trimmed, quotes are doubled and the whole field
is wrapped in quotes. -/
def esc (v : Option String) : String :=
  match v with
  | none => "\"\""
  | some s =>
      let t := trimStr (String.mk (collapseNewlines
        (s.data.filter (fun c => c ≠ '\x00'))))
      "\"" ++ String.mk (escQuotes t.data) ++ "\""

/-- Check whether cs starts with pat. -/
def startsWithChars : List Char → List Char → Bool
  | _, [] => true
  | [], _ :: _ => false
  | c :: cs, p :: ps => c = p && startsWithChars cs ps

/-- Substring test (String.prototype.includes). -/
def hasSubstr (pat : List Char) : List Char → Bool
  | [] => pat.isEmpty
  | c :: rest => startsWithChars (c :: rest) pat || hasSubstr pat rest

/-- String.prototype.includes on strings. -/
def strIncludes (s pat : String) : Bool := hasSubstr pat.data s.data

/-- First line of a file as emitted by readline (up to LF, a trailing CR
stripped by crlfDelay: Infinity). -/
def firstLine (s : String) : String :=
  let l := s.data.takeWhile (fun c => c ≠ '\n')
  String.mk (if l.getLast? = some '\r' then l.dropLast else l)

/-- readHeaderLine (saveProfilesCsv.js lines 39-49): none when the file is
absent or empty (the readline stream closes without emitting a line),
otherwise the first line. -/
def readHeaderLine (fs : FS) (p : String) : Option String :=
  match FS.read fs p with
  | none => none
  | some c => if c = "" then none else some (firstLine c)

/-- chooseColumnsForExistingHeader (saveProfilesCsv.js lines 51-68),
translated branch for branch.  Note that the check for 'domain' is a
substring test, so a header containing 'domain1' also sets hasDomain. -/
def chooseColumnsForExistingHeader (headerLine : Option String) : List Column :=
  let lc := lowerStr (headerLine.getD "")
  let hasDomain := strIncludes lc "domain" || strIncludes lc "website"
  let hasDomain1 := strIncludes lc "domain1"
  let hasDomain2 := strIncludes lc "domain2"
  let hasEmail := strIncludes lc "email"
  if hasDomain && hasEmail then EXT_DOMAIN_EMAIL
  else if hasDomain then EXT_DOMAIN
  else if hasDomain1 && hasDomain2 && hasEmail then
    BASE_COLUMNS ++ [⟨"domain1", "domain1"⟩, ⟨"domain2", "domain2"⟩, ⟨"Email", "Email"⟩]
  else if hasDomain1 && hasDomain2 then
    BASE_COLUMNS ++ [⟨"domain1", "domain1"⟩, ⟨"domain2", "domain2"⟩]
  else if hasDomain1 && hasEmail then
    BASE_COLUMNS ++ [⟨"domain1", "domain1"⟩, ⟨"Email", "Email"⟩]
  else if hasDomain1 then BASE_COLUMNS ++ [⟨"domain1", "domain1"⟩]
  else if hasEmail then EXT_EMAIL
  else BASE_COLUMNS

/-- The legacy multi-domain column set that the source's comment says an
old-schema file should keep using. -/
def LEGACY_DOMAINS : List Column :=
  BASE_COLUMNS ++ [⟨"domain1", "domain1"⟩, ⟨"domain2", "domain2"⟩]

/-- Options of saveProfilesCsv. -/
structure SaveOpts where
  filePath : String := "output.csv"
  append : Option Bool := none
  includeBOM : Bool := true

/-- One emitted CSV data line for a row under a column set: missing fields
are read as empty string (ensureKeysForColumns plus the nullish default). -/
def csvRowLine (columns : List Column) (r : Obj) : String :=
  String.intercalate "," (columns.map (fun c => esc (some ((objGet r c.key).getD ""))))

/-- The emitted CSV header line for a column set. -/
def csvHeaderLine (columns : List Column) : String :=
  String.intercalate ","
    (columns.map (fun c => esc (some (if c.header = "" then c.key else c.header))))

/-- saveProfilesCsv (saveProfilesCsv.js lines 97-130) over the file-system
model.  The rows argument is Option to model a missing rows value; returns
the updated file system and the resolved path (path resolution itself is
not modelled). -/
def saveProfilesCsv (rows : Option (List Obj)) (opts : SaveOpts) (fs : FS) :
    FS × String :=
  match rows with
  | none => (fs, opts.filePath)
  | some rs =>
      if rs.length = 0 then (fs, opts.filePath)
      else
        let fs1 := fs.mkdirp (dirname opts.filePath)
        let fileExists := fs1.fileExists opts.filePath
        let shouldAppend := opts.append = some true ∨
          (opts.append = none ∧ fileExists = true)
        let columns :=
          if fileExists then
            chooseColumnsForExistingHeader (readHeaderLine fs1 opts.filePath)
          else EXT_DOMAIN_EMAIL
        let headerStr := csvHeaderLine columns ++ "\r\n"
        let bodyStr :=
          String.intercalate "\r\n" (rs.map (csvRowLine columns)) ++ "\r\n"
        let bomStr := if opts.includeBOM then "\uFEFF" else ""
        if shouldAppend then
          if fileExists then (fs1.appendFile opts.filePath bodyStr, opts.filePath)
          else (fs1.appendFile opts.filePath (bomStr ++ headerStr ++ bodyStr),
            opts.filePath)
        else (fs1.writeFile opts.filePath (bomStr ++ headerStr ++ bodyStr),
          opts.filePath)

/-! ### First-occurrence deduplication loops

Both the SignalHire save path (signalHire/index.js lines 126-140) and the
CSV dedup pass (utils/deduplicateCsv.js lines 137-151) run the same loop:
walk the rows, keep rows whose key is empty, drop rows whose key is
blocked or was already seen, and record fresh keys.  dedupeLoop is that
shared loop, parameterized by the key function and the initially blocked
keys.
-/

/-- The first-occurrence filter loop shared by the SignalHire save path
and the CSV dedup pass. -/
def dedupeLoop (key : Obj → String) (blocked : List String) :
    List Obj → List String → List Obj
  | [], _ => []
  | r :: rs, seen =>
      let k := key r
      if k = "" then r :: dedupeLoop key blocked rs seen
      else if blocked.contains k || seen.contains k then
        dedupeLoop key blocked rs seen
      else r :: dedupeLoop key blocked rs (k :: seen)

/-! ### SignalHire save-path deduplication (signalHire/index.js lines 93-140) -/

/-- Normalized LinkedIn URL of an extracted row: person_title trimmed and
lower-cased when truthy, empty otherwise (line 129). -/
def urlKey (r : Obj) : String :=
  match objGet r "person_title" with
  | some s => if s = "" then "" else lowerStr (trimStr s)
  | none => ""

/-- JS fallback chain a || b || c over record fields: the first truthy
(present and nonempty) value. -/
def firstTruthy (r : Obj) : List String → Option String
  | [] => none
  | k :: ks =>
      match objGet r k with
      | some s => if s = "" then firstTruthy r ks else some s
      | none => firstTruthy r ks

/-- The set of URLs already present in the output file (lines 115-121):
for each parsed record take rec['LinkedIn URL'] || rec['LinkedIn'] ||
rec['person_title'], and when truthy add it trimmed and lower-cased. -/
def buildExistingUrls (records : List Obj) : List String :=
  records.filterMap (fun rec =>
    match firstTruthy rec ["LinkedIn URL", "LinkedIn", "person_title"] with
    | some s => some (lowerStr (trimStr s))
    | none => none)

/-- The batch filter of runSignalHire (lines 126-140): keep rows without a
URL, drop rows whose URL is in the file or seen earlier in the batch. -/
def dedupeNewRows (existing : List String) (rows : List Obj)
    (seen : List String) : List Obj :=
  dedupeLoop urlKey existing rows seen

/-! ### Scheduler transition system (routes/scrapeRoutes.js)

The request handlers mutate the shared scrapeSession object and the jobs
cache.  Each handler's synchronous block is one atomic transition (Node
runs it without interleaving).  The background runScrape tasks contribute
their own transitions: entering the scrape loop (line 381 sets isScraping)
and the loop-head checkpoint (lines 387-403), which can also fire for a
stale runner — a runScrape instance whose job has been preempted but whose
pending await resolved later.  Jobs are reduced to their state field, the
only field the single-running invariant concerns.
-/

/-- Job lifecycle states. -/
inductive JState
  | running
  | pausing
  | paused
  | completed
deriving DecidableEq

/-- The scrapeSession object plus the jobs cache plus the set of in-flight
runScrape instances (job id, whether the instance has reached the scrape
loop). -/
structure Sched where
  jobs : List (String × JState)
  current : Option String
  isScraping : Bool
  isPaused : Bool
  pauseRequested : Bool
  runners : List (String × Bool)
deriving DecidableEq

/-- Server start: empty cache, no current job, nothing running. -/
def Sched.initial : Sched :=
  { jobs := []
    current := none
    isScraping := false
    isPaused := false
    pauseRequested := false
    runners := [] }

/-- Events: the create/run/resume/stop request handlers, and the
background runner's loop-entry and loop-head checkpoint transitions. -/
inductive Ev
  | create (id : String)
  | runJob (id : String)
  | resume
  | stopCurrent
  | loopEnter (id : String)
  | checkpoint (id : String)
  | complete (id : String)
  | navFail (id : String)
deriving DecidableEq

/-- The shared preemption block of POST /api/scrape (lines 644-655) and
POST /api/jobs/:id/run (lines 192-202): when the session is scraping and
the current job is cached, request a pause and set it to paused. -/
def preemptCurrent (s : Sched) : Sched :=
  match s.current with
  | some c =>
      if s.isScraping = true ∧ (alGet s.jobs c).isSome then
        { s with
          jobs := alSet s.jobs c JState.paused
          pauseRequested := true }
      else s
  | none => s

/-- One transition of the scheduler.  Handler events mirror the route
bodies; loopEnter mirrors runScrape lines 381-382 (which set the session
flags without re-checking the current job id); checkpoint mirrors the
loop-head pause/preemption check at lines 387-403; complete mirrors the
loop-exit epilogue at lines 580-582; navFail mirrors the navigation
failure branch at lines 554-559. -/
def step (s : Sched) (e : Ev) : Sched :=
  match e with
  | .create id =>
      let s1 := preemptCurrent s
      { s1 with
        jobs := alSet s1.jobs id JState.running
        current := some id
        isScraping := true
        isPaused := false
        pauseRequested := false
        runners := s1.runners ++ [(id, false)] }
  | .runJob id =>
      if (alGet s.jobs id).isNone then s
      else if s.current = some id ∧ s.isScraping = true then s
      else
        let s1 := preemptCurrent s
        { s1 with
          jobs := alSet s1.jobs id JState.running
          current := some id
          isScraping := true
          isPaused := false
          pauseRequested := false
          runners := s1.runners ++ [(id, false)] }
  | .resume =>
      match s.current with
      | some c =>
          if s.isPaused = true ∧ (alGet s.jobs c).isSome then
            { s with
              jobs := alSet s.jobs c JState.running
              isPaused := false
              isScraping := true
              pauseRequested := false
              runners := s.runners ++ [(c, false)] }
          else s
      | none => s
  | .stopCurrent =>
      match s.current with
      | some c =>
          if s.isScraping = true ∧ (alGet s.jobs c).isSome then
            { s with
              jobs := alSet s.jobs c JState.pausing
              pauseRequested := true }
          else s
      | none => s
  | .loopEnter id =>
      if s.runners.contains (id, false) then
        { s with
          isScraping := true
          isPaused := false
          runners := s.runners.filter (fun p => p != (id, false)) ++ [(id, true)] }
      else s
  | .checkpoint id =>
      if s.runners.contains (id, true) then
        if s.current ≠ some id ∨ s.pauseRequested = true then
          { s with
            jobs := alSet s.jobs id JState.paused
            isScraping := false
            isPaused := s.pauseRequested
            pauseRequested := false
            runners := s.runners.filter (fun p => p != (id, true)) }
        else s
      else s
  | .complete id =>
      if s.runners.contains (id, true) then
        { s with
          jobs := alSet s.jobs id JState.completed
          isScraping := false
          isPaused := false
          runners := s.runners.filter (fun p => p != (id, true)) }
      else s
  | .navFail id =>
      if s.runners.contains (id, true) then
        { s with
          jobs := alSet s.jobs id JState.paused
          isScraping := false
          isPaused := true
          pauseRequested := false
          runners := s.runners.filter (fun p => p != (id, true)) }
      else s

/-- Number of jobs in state running. -/
def runningCount (s : Sched) : Nat :=
  (s.jobs.filter (fun p => p.2 == JState.running)).length

/-- A runner event is tame when it belongs to the runner of the current
job; a stale runner's checkpoint (its job was preempted while one of its
awaits was pending) is the untame case. -/
def tameEv (s : Sched) (e : Ev) : Prop :=
  match e with
  | .loopEnter id => s.current = some id
  | .checkpoint id => s.current = some id
  | .complete id => s.current = some id
  | .navFail id => s.current = some id
  | _ => True

/-- States reachable from server start by handler events and tame runner
events only. -/
inductive TameReach : Sched → Prop
  | init : TameReach Sched.initial
  | next (s : Sched) (e : Ev) : TameReach s → tameEv s e → TameReach (step s e)

/-- The scheduler invariant: cache keys are unique, and every running job
is the current job with the session marked scraping and not paused. -/
def SchedInv (s : Sched) : Prop :=
  (s.jobs.map Prod.fst).Nodup ∧
  ∀ p ∈ s.jobs, p.2 = JState.running →
    s.current = some p.1 ∧ s.isScraping = true ∧ s.isPaused = false

/-! ### Job Runner (routes/scrapeRoutes.js, runScrape, lines 264-614)

The runner drives one job.  Its environment — browser, logins, the
extraction helpers and the Pagination Advancer — is scripted: one
PageEvents record per loop iteration carries the outcomes the environment
produces at that iteration.  File effects of the extraction helpers are
covered by the CSV model above and are not repeated here; the runner model
tracks the job record, the browser session, and how the run terminated.
-/

/-- Outcome of one clickNextPage call (nextPageNavigation.js: 'moved',
'no-more' or 'failed'). -/
inductive NavStatus
  | moved
  | noMore
  | failed
deriving DecidableEq

/-- The job fields the runner reads and writes. -/
structure RJob where
  state : JState
  stateReason : Option String
  message : Option String
  pageIndex : Nat
  currentUrl : String
  totalRows : Nat
  totalContacts : Nat
deriving DecidableEq

/-- Environment outcomes of one loop iteration.  The four stop flags are
what the four pause/preemption checkpoints observe (pauseRequested set or
currentJobId changed): lines 387, 406, 436 and 508.  A none extraction
outcome means that helper threw (caught locally at lines 432 and 475); a
none nav outcome means clickNextPage itself threw, which reaches the
per-page catch at line 572. -/
structure PageEvents where
  stopBefore1 : Bool
  stopBefore2 : Bool
  shRows : Option Nat
  stopBefore3 : Bool
  coProfiles : Option Nat
  stopBefore4 : Bool
  nav : Option NavStatus
  urlAfter : String
deriving DecidableEq

/-- Precondition outcomes of one run plus the per-iteration script. -/
structure RunInputs where
  jobPresent : Bool
  cookieFile : Bool
  coLogin : Bool
  shLogin : Bool
  liLoggedIn : Bool
  pages : List PageEvents
deriving DecidableEq

/-- How the run terminated. -/
inductive RunExit
  | noJob
  | noCookie
  | thirdPartyLoginFailed
  | cookieExpired
  | preempted
  | navFailed
  | completedEnd
  | scriptOut
deriving DecidableEq

/-- Observable result of a run: final job fields, session bookkeeping, the
outcome of the last clickNextPage call that returned, and whether the
per-page catch fired. -/
structure RunResult where
  job : RJob
  exit : RunExit
  browserLaunched : Bool
  browserClosed : Bool
  lastNav : Option NavStatus
  pageErrCaught : Bool
deriving DecidableEq

/-- The scrape loop (lines 385-576) followed by the completion epilogue
(lines 578-593).  Note the epilogue runs whenever the loop exits with
continueScrape false, which happens both on a 'no-more' outcome and when
the per-page catch at line 572 swallowed an error. -/
def runLoop : List PageEvents → RJob → Nat → Option NavStatus → RunResult
  | [], job, _, lastNav =>
      { job := job
        exit := RunExit.scriptOut
        browserLaunched := true
        browserClosed := false
        lastNav := lastNav
        pageErrCaught := false }
  | ev :: rest, job, currentPage, lastNav =>
      if ev.stopBefore1 || ev.stopBefore2 then
        { job := { job with pageIndex := currentPage, state := JState.paused }
          exit := RunExit.preempted
          browserLaunched := true
          browserClosed := true
          lastNav := lastNav
          pageErrCaught := false }
      else
        let shCount := ev.shRows.getD 0
        let job1 :=
          match ev.shRows with
          | some n => { job with totalRows := job.totalRows + n }
          | none => job
        if ev.stopBefore3 then
          { job := { job1 with pageIndex := currentPage, state := JState.paused }
            exit := RunExit.preempted
            browserLaunched := true
            browserClosed := true
            lastNav := lastNav
            pageErrCaught := false }
        else
          let job2 :=
            if shCount > 0 then
              match ev.coProfiles with
              | some m => { job1 with totalContacts := job1.totalContacts + m }
              | none => job1
            else job1
          if ev.stopBefore4 then
            { job := { job2 with pageIndex := currentPage, state := JState.paused }
              exit := RunExit.preempted
              browserLaunched := true
              browserClosed := true
              lastNav := lastNav
              pageErrCaught := false }
          else
            match ev.nav with
            | none =>
                { job := { job2 with state := JState.completed }
                  exit := RunExit.completedEnd
                  browserLaunched := true
                  browserClosed := true
                  lastNav := lastNav
                  pageErrCaught := true }
            | some nav =>
                let newPage :=
                  if nav = NavStatus.moved then currentPage + 1 else currentPage
                let job3 := { job2 with pageIndex := newPage, currentUrl := ev.urlAfter }
                match nav with
                | NavStatus.failed =>
                    { job := { job3 with state := JState.paused }
                      exit := RunExit.navFailed
                      browserLaunched := true
                      browserClosed := true
                      lastNav := some NavStatus.failed
                      pageErrCaught := false }
                | NavStatus.noMore =>
                    { job := { job3 with state := JState.completed }
                      exit := RunExit.completedEnd
                      browserLaunched := true
                      browserClosed := true
                      lastNav := some NavStatus.noMore
                      pageErrCaught := false }
                | NavStatus.moved =>
                    runLoop rest job3 newPage (some NavStatus.moved)

/-- runScrape (lines 264-614): precondition checks, then the loop. -/
def runScrape (job0 : RJob) (inp : RunInputs) : RunResult :=
  if inp.jobPresent = false then
    { job := job0
      exit := RunExit.noJob
      browserLaunched := false
      browserClosed := false
      lastNav := none
      pageErrCaught := false }
  else if inp.cookieFile = false then
    { job := { job0 with state := JState.paused }
      exit := RunExit.noCookie
      browserLaunched := false
      browserClosed := false
      lastNav := none
      pageErrCaught := false }
  else if inp.coLogin = false || inp.shLogin = false then
    { job := { job0 with state := JState.paused }
      exit := RunExit.thirdPartyLoginFailed
      browserLaunched := true
      browserClosed := false
      lastNav := none
      pageErrCaught := false }
  else if inp.liLoggedIn = false then
    { job := { job0 with
        state := JState.paused
        stateReason := some "cookie_expired"
        message := some "LinkedIn cookie expired. Please update your cookie." }
      exit := RunExit.cookieExpired
      browserLaunched := true
      browserClosed := true
      lastNav := none
      pageErrCaught := false }
  else
    let job1 :=
      if job0.pageIndex = 1 then { job0 with totalRows := 0, totalContacts := 0 }
      else job0
    runLoop inp.pages job1 job1.pageIndex none

/-! ### CSV parsing and serialization (csv-parse/sync and csv-stringify/sync
as called by utils/deduplicateCsv.js: columns, bom, skip_empty_lines, trim,
relax_column_count)

The parser is a character state machine.  Records are delimited by LF;
a CR before the LF is removed by the trimming of unquoted fields and
skipped after a closing quote, so CRLF files parse as expected (CR-only
record delimiters are not modelled).  Quoted fields keep their content
verbatim (including whitespace, which the trim option does not touch
inside quotes); unquoted fields are trimmed.  A quote inside an unquoted
field, a bad character after a closing quote, or an unterminated quote is
a parse error, matching the strict defaults of csv-parse.  Empty lines
produce no record (skip_empty_lines).  The serializer quotes a field only
when it contains a comma, quote, CR or LF, terminates every record with
LF, and prefixes a BOM, matching csv-stringify with bom: true.
-/

/-- Lexer modes: at the start of a field (skipping leading blanks), inside
an unquoted field, inside quotes, just after a quote while inside quotes
(escape or close), and after a closed quote (awaiting a delimiter). -/
inductive LMode
  | fieldStart
  | unquoted
  | inQuotes
  | quoteSeen
  | afterQuote
deriving DecidableEq

/-- Finished unquoted field: reverse the accumulator and trim. -/
def mkTrimmed (facc : List Char) : String := String.mk (trimChars facc.reverse)

/-- Finished quoted field: reverse the accumulator, verbatim. -/
def mkRaw (facc : List Char) : String := String.mk facc.reverse

/-- The CSV lexer.  Arguments: mode, input, field accumulator (reversed),
record accumulator (reversed fields), output records (reversed), and
whether the current line has consumed any character (used by
skip_empty_lines).  Returns none on a lexical error. -/
def lexLoop : LMode → List Char → List Char → List String → List (List String) →
    Bool → Option (List (List String))
  | m, [], facc, racc, out, hc =>
      match m with
      | LMode.inQuotes => none
      | LMode.fieldStart =>
          if racc.isEmpty && !hc then some out.reverse
          else some ((("" :: racc).reverse) :: out).reverse
      | LMode.unquoted => some (((mkTrimmed facc :: racc).reverse) :: out).reverse
      | LMode.quoteSeen => some (((mkRaw facc :: racc).reverse) :: out).reverse
      | LMode.afterQuote => some (((mkRaw facc :: racc).reverse) :: out).reverse
  | m, c :: rest, facc, racc, out, hc =>
      match m with
      | LMode.fieldStart =>
          if c = '\n' then
            if racc.isEmpty && !hc then lexLoop LMode.fieldStart rest [] [] out false
            else lexLoop LMode.fieldStart rest [] []
              ((("" :: racc).reverse) :: out) false
          else if c = '\r' then lexLoop LMode.fieldStart rest [] racc out hc
          else if c = ' ' || c = '\t' then lexLoop LMode.fieldStart rest [] racc out true
          else if c = '"' then lexLoop LMode.inQuotes rest [] racc out true
          else if c = ',' then lexLoop LMode.fieldStart rest [] ("" :: racc) out true
          else lexLoop LMode.unquoted rest [c] racc out true
      | LMode.unquoted =>
          if c = '\n' then
            lexLoop LMode.fieldStart rest [] []
              (((mkTrimmed facc :: racc).reverse) :: out) false
          else if c = '"' then none
          else if c = ',' then
            lexLoop LMode.fieldStart rest [] (mkTrimmed facc :: racc) out true
          else lexLoop LMode.unquoted rest (c :: facc) racc out true
      | LMode.inQuotes =>
          if c = '"' then lexLoop LMode.quoteSeen rest facc racc out true
          else lexLoop LMode.inQuotes rest (c :: facc) racc out true
      | LMode.quoteSeen =>
          if c = '"' then lexLoop LMode.inQuotes rest ('"' :: facc) racc out true
          else if c = '\n' then
            lexLoop LMode.fieldStart rest [] []
              (((mkRaw facc :: racc).reverse) :: out) false
          else if c = ',' then
            lexLoop LMode.fieldStart rest [] (mkRaw facc :: racc) out true
          else if c = ' ' || c = '\t' || c = '\r' then
            lexLoop LMode.afterQuote rest facc racc out true
          else none
      | LMode.afterQuote =>
          if c = '\n' then
            lexLoop LMode.fieldStart rest [] []
              (((mkRaw facc :: racc).reverse) :: out) false
          else if c = ',' then
            lexLoop LMode.fieldStart rest [] (mkRaw facc :: racc) out true
          else if c = ' ' || c = '\t' || c = '\r' then
            lexLoop LMode.afterQuote rest facc racc out true
          else none

/-- Record fields to a row object (columns: true): zip the header names
with the record's fields; extra fields beyond the header are dropped and
missing trailing fields stay absent (relax_column_count), and a duplicated
header name keeps its first position with the later value overwriting
(object assignment). -/
def buildRow (names : List String) (fields : List String) : Obj :=
  (names.zip fields).foldl (fun acc kv => objSet acc kv.1 kv.2) []

/-- Strip a leading BOM (bom: true). -/
def stripBOM (s : String) : List Char :=
  match s.data with
  | '\uFEFF' :: rest => rest
  | l => l

/-- The parse call of deduplicateCsv.js lines 112-119 followed by the
header extraction at line 124: none when parsing throws; an empty header
and row list when no data records exist; otherwise Object.keys of the
first row object and the row objects. -/
def parseCsv (raw : String) : Option (List String × List Obj) :=
  match lexLoop LMode.fieldStart (stripBOM raw) [] [] [] false with
  | none => none
  | some [] => some ([], [])
  | some (names :: dataRecs) =>
      let rows := dataRecs.map (buildRow names)
      match rows with
      | [] => some ([], [])
      | r0 :: _ => some (objKeys r0, rows)

/-- Characters that force quoting: delimiter, quote, record delimiter. -/
def isCsvSpecial (c : Char) : Bool :=
  c = ',' || c = '"' || c = '\n' || c = '\r'

/-- Quoting predicate of csv-stringify: a field is quoted only when it
contains a delimiter, a quote, or a record-delimiter character. -/
def needsQuote (s : String) : Bool :=
  s.data.any isCsvSpecial

/-- One serialized field. -/
def emitField (s : String) : String :=
  if needsQuote s then "\"" ++ String.mk (escQuotes s.data) ++ "\"" else s

/-- One serialized record line (no terminator), fields joined by commas. -/
def emitLine : List String → String
  | [] => ""
  | [v] => emitField v
  | v :: vs => emitField v ++ "," ++ emitLine vs

/-- The values a record contributes under the header columns: a missing
key serializes as the empty string. -/
def rowValues (h : List String) (r : Obj) : List String :=
  h.map (fun c => (objGet r c).getD "")

/-- Serialize records as LF-terminated lines. -/
def joinLines : List (List String) → String
  | [] => ""
  | vs :: rest => emitLine vs ++ "\n" ++ joinLines rest

/-- csv-stringify with header: true, columns: the original header, bom:
true: BOM, header line, then one LF-terminated line per record. -/
def stringifyCsv (h : List String) (rows : List Obj) : String :=
  "\uFEFF" ++ joinLines (h :: rows.map (rowValues h))

/-! ### deduplicateCsv (utils/deduplicateCsv.js lines 98-159) -/

/-- The dedup key of a row: the key column's value (missing read as
empty), trimmed and lower-cased (line 140). -/
def csvKeyOf (keyCol : String) (r : Obj) : String :=
  lowerStr (trimStr ((objGet r keyCol).getD ""))

/-- Key column selection (lines 124-132): the first alias for which some
header column matches case-insensitively; the header's own spelling is
returned. -/
def findKeyCol (header : List String) (aliases : List String) : Option String :=
  aliases.findSome? (fun a => header.find? (fun hcol => lowerStr hcol = lowerStr a))

/-- Default key aliases of deduplicateCsv. -/
def DEFAULT_KEY_ALIASES : List String := ["LinkedIn URL", "LinkedIn", "person_title"]

/-- The dedup loop of lines 137-151: the shared first-occurrence filter
with no separately blocked keys. -/
def dedupeCsvRows (keyCol : String) (rows : List Obj) (seen : List String) :
    List Obj :=
  dedupeLoop (csvKeyOf keyCol) [] rows seen

/-- deduplicateCsv as a transformation of the file's contents (none =
missing file).  A missing file, a parse error, an empty record set, or no
matching alias leaves the file untouched; otherwise the deduplicated
records are written back with the original column order. -/
def deduplicateCsv (content : Option String) (aliases : List String) :
    Option String :=
  match content with
  | none => none
  | some raw =>
      match parseCsv raw with
      | none => some raw
      | some (header, rows) =>
          if rows.isEmpty then some raw
          else
            match findKeyCol header aliases with
            | none => some raw
            | some keyCol =>
                some (stringifyCsv header (dedupeCsvRows keyCol rows []))

end SalesNav

namespace SalesNav

/-! ### Association list lemmas shared by the models -/

theorem alGet_alSet_self {α : Type} (o : List (String × α)) (k : String) (v : α) :
    alGet (alSet o k v) k = some v := by
  induction o with
  | nil => simp [alGet, alSet]
  | cons p rest ih =>
      by_cases hp : p.1 = k
      · simp [alGet, alSet, hp]
      · simpa [alGet, alSet, hp] using ih

theorem alGet_alSet_ne {α : Type} (o : List (String × α)) (k k' : String)
    (v : α) (hne : k' ≠ k) : alGet (alSet o k v) k' = alGet o k' := by
  have hkk : ¬(k = k') := fun h => hne h.symm
  induction o with
  | nil => simp [alGet, alSet, hkk]
  | cons p rest ih =>
      by_cases hp : p.1 = k
      · have hp' : ¬(p.1 = k') := by rw [hp]; exact hkk
        simp only [alSet, if_pos hp, alGet, if_neg hkk, if_neg hp']
      · by_cases hp' : p.1 = k'
        · simp only [alSet, if_neg hp, alGet, if_pos hp']
        · simp only [alSet, if_neg hp, alGet, if_neg hp']
          exact ih

theorem objGet_objAssign_of_lastVal_none (us : List (String × String))
    (o : Obj) (k : String) (hnone : lastVal us k = none) :
    objGet (objAssign o us) k = objGet o k := by
  induction us generalizing o with
  | nil => rfl
  | cons u us ih =>
      have hus : lastVal us k = none := by
        unfold lastVal at hnone
        cases h : lastVal us k with
        | none => rfl
        | some v => rw [h] at hnone; exact absurd hnone (by simp)
      have huk : ¬(u.1 = k) := by
        intro hk
        unfold lastVal at hnone
        rw [hus] at hnone
        simp [hk] at hnone
      have hk' : k ≠ u.1 := fun h => huk h.symm
      calc objGet (objAssign o (u :: us)) k
          = objGet (objAssign (objSet o u.1 u.2) us) k := rfl
        _ = objGet (objSet o u.1 u.2) k := ih _ hus
        _ = objGet o k := alGet_alSet_ne o u.1 k u.2 hk'

theorem objGet_objAssign_of_lastVal (us : List (String × String)) (o : Obj)
    (k v : String) (hsome : lastVal us k = some v) :
    objGet (objAssign o us) k = some v := by
  induction us generalizing o with
  | nil => exact absurd hsome (by simp [lastVal])
  | cons u us ih =>
      cases h : lastVal us k with
      | some w =>
          have hv : w = v := by
            unfold lastVal at hsome
            rw [h] at hsome
            exact Option.some.inj hsome
          subst hv
          exact ih _ h
      | none =>
          have huk : u.1 = k ∧ u.2 = v := by
            unfold lastVal at hsome
            rw [h] at hsome
            by_cases hk : u.1 = k
            · rw [if_pos hk] at hsome
              exact ⟨hk, Option.some.inj hsome⟩
            · rw [if_neg hk] at hsome
              exact absurd hsome (by simp)
          calc objGet (objAssign o (u :: us)) k
              = objGet (objAssign (objSet o u.1 u.2) us) k := rfl
            _ = objGet (objSet o u.1 u.2) k :=
                objGet_objAssign_of_lastVal_none us _ k h
            _ = some v := by
                rw [huk.1, huk.2]
                exact alGet_alSet_self o k v

/-- C4 (counterexample): jobsManager.getJobs does not return a snapshot
copy of the cache — it returns the cache object itself (jobsManager.js
line 127), so writing a key through the returned collection changes what a
subsequent getJob call observes.  Starting from an empty cache, mutating
the collection returned by getJobs makes getJob return the new record,
whereas before the mutation it returned none. -/
theorem getJobs_snapshot_cex :
    getJob (mutateThrough emptyJM (getJobsRef emptyJM) "j1" [("id", "j1")]) "j1" =
      some [("id", "j1")] ∧ getJob emptyJM "j1" = none := by
  exact ⟨rfl, rfl⟩

/-- C4 (amended): getJobs returns the in-memory jobs cache itself — the
very reference held by the module — rather than a snapshot, so a mutation
performed through the returned collection is visible to every subsequent
getJob call. -/
theorem getJobs_alias_amended (s : JMState) (k : String) (v : Obj) :
    getJobsRef s = s.cacheRef ∧
    getJob (mutateThrough s (getJobsRef s) k v) k = some v := by
  refine ⟨rfl, ?_⟩
  show cacheGet ((mutateThrough s s.cacheRef k v).heap s.cacheRef) k = some v
  show cacheGet (if s.cacheRef = s.cacheRef then cacheSet (s.heap s.cacheRef) k v
    else s.heap s.cacheRef) k = some v
  rw [if_pos rfl]
  exact alGet_alSet_self (s.heap s.cacheRef) k v

/-- C5 (counterexample): updateJob on an id that is not cached builds an
empty record, merges the partial fields, and hands the result to saveJob —
which throws 'Invalid job object' because the merged record has no id
field.  So updateJob does not, for every id and partial-fields object,
persist without raising an error. -/
theorem updateJob_absent_throws_cex :
    updateJob [] "j1" [("state", "paused")] = .error "Invalid job object" := rfl

/-- C5 (amended): when a record with the given id is cached (carrying a
truthy id after the merge), updateJob merges the partial fields onto it and
persists without error; afterwards the cache holds under that id the merged
record, whose fields include every supplied partial field (the last
assignment wins when a key repeats).  When no record is cached and the
updates do not supply a truthy id, updateJob raises 'Invalid job object'
instead of creating the record. -/
theorem updateJob_merge_amended (c : Cache) (jobId : String) (job : Obj)
    (updates : List (String × String)) (i : String)
    (hjid : jobId ≠ "")
    (hc : cacheGet c jobId = some job)
    (hid : objGet (objAssign job updates) "id" = some i)
    (hine : i ≠ "") :
    ∃ c', updateJob c jobId updates = .ok c' ∧
      cacheGet c' jobId = some (objAssign job updates) ∧
      ∀ k v, lastVal updates k = some v →
        objGet (objAssign job updates) k = some v := by
  have htr : truthyId (objAssign job updates) = true := by
    unfold truthyId
    rw [hid]
    simp [hine]
  have hgi : (objGet (objAssign job updates) "id").get! = i := by
    rw [hid]
    rfl
  refine ⟨cacheSet (cacheSet c jobId (objAssign job updates)) i (objAssign job updates),
    ?_, ?_, fun k v hv => objGet_objAssign_of_lastVal updates job k v hv⟩
  · have h1 : updateJob c jobId updates =
        saveJob (cacheSet c jobId (objAssign job updates)) (objAssign job updates) := by
      unfold updateJob
      rw [if_neg hjid, hc]
    rw [h1]
    unfold saveJob
    rw [htr, hgi]
    simp
  · unfold cacheGet cacheSet
    by_cases hij : jobId = i
    · subst hij
      exact alGet_alSet_self _ jobId _
    · rw [alGet_alSet_ne _ i jobId _ hij]
      exact alGet_alSet_self _ jobId _

/-- C5 (witness): the amended theorem applied to a concrete cached record
and a concrete partial update. -/
theorem updateJob_merge_amended_witness :
    ∃ c', updateJob [("j1", [("id", "j1"), ("state", "running")])] "j1"
        [("state", "paused")] = .ok c' ∧
      cacheGet c' "j1" =
        some (objAssign [("id", "j1"), ("state", "running")] [("state", "paused")]) ∧
      ∀ k v, lastVal [("state", "paused")] k = some v →
        objGet (objAssign [("id", "j1"), ("state", "running")] [("state", "paused")]) k =
          some v :=
  updateJob_merge_amended _ "j1" _ _ "j1" (by decide) (by rfl) (by rfl) (by decide)

/-- C7: saveProfilesCsv called with a missing or empty rows array returns
before touching the file system (saveProfilesCsv.js line 99): no directory
is created, no file is created or modified. -/
theorem saveProfilesCsv_empty_noop (opts : SaveOpts) (fs : FS) :
    (saveProfilesCsv none opts fs).1 = fs ∧
    (saveProfilesCsv (some []) opts fs).1 = fs :=
  ⟨rfl, rfl⟩

/-- C6 (failing input): on a pre-existing file with the legacy
domain1/domain2 header, the classifier never selects the legacy column
set: 'domain1' contains the substring 'domain', so hasDomain fires first
(saveProfilesCsv.js line 54) and the file is classified as
canonical-with-domain, making the legacy branches at lines 62-65
unreachable.  Appending then writes 8-field rows under the 9-column
header and silently drops the row's domain1 value, while the header line
itself is preserved byte for byte. -/
theorem saveProfilesCsv_legacy_append_bug :
    chooseColumnsForExistingHeader
        (some "\"Name\",\"First Name\",\"Last Name\",\"Title\",\"Company\",\"Location\",\"LinkedIn URL\",\"domain1\",\"domain2\"") =
      EXT_DOMAIN ∧
    EXT_DOMAIN ≠ LEGACY_DOMAINS ∧
    EXT_DOMAIN.length = 8 ∧ LEGACY_DOMAINS.length = 9 ∧
    FS.read
      (saveProfilesCsv
        (some [[("name", "A"), ("person_title", "URL1"), ("domain1", "x.com")]])
        { filePath := "data/out.csv" }
        { files := [("data/out.csv",
            "\"Name\",\"First Name\",\"Last Name\",\"Title\",\"Company\",\"Location\",\"LinkedIn URL\",\"domain1\",\"domain2\"\r\n")],
          dirs := ["data"] }).1 "data/out.csv" =
      some ("\"Name\",\"First Name\",\"Last Name\",\"Title\",\"Company\",\"Location\",\"LinkedIn URL\",\"domain1\",\"domain2\"\r\n" ++
        "\"A\",\"\",\"\",\"\",\"\",\"\",\"URL1\",\"\"\r\n") := by
  refine ⟨by decide, by decide, by decide, by decide, ?_⟩
  rfl

/-! ### Properties of the shared first-occurrence dedup loop -/

theorem dedupeLoop_sublist (key : Obj → String) (blocked : List String) :
    ∀ rows seen, List.Sublist (dedupeLoop key blocked rows seen) rows := by
  intro rows
  induction rows with
  | nil => intro seen; simp [dedupeLoop]
  | cons r rs ih =>
      intro seen
      unfold dedupeLoop
      by_cases h1 : key r = ""
      · simp only [if_pos h1]
        exact List.Sublist.cons₂ r (ih seen)
      · simp only [if_neg h1]
        by_cases h2 : (blocked.contains (key r) || seen.contains (key r)) = true
        · simp only [if_pos h2]
          exact List.Sublist.cons r (ih seen)
        · simp only [if_neg h2]
          exact List.Sublist.cons₂ r (ih (key r :: seen))

theorem dedupeLoop_keeps_empty (key : Obj → String) (blocked : List String) :
    ∀ rows seen,
      (dedupeLoop key blocked rows seen).filter (fun r => key r == "") =
        rows.filter (fun r => key r == "") := by
  intro rows
  induction rows with
  | nil => intro seen; rfl
  | cons r rs ih =>
      intro seen
      unfold dedupeLoop
      by_cases h1 : key r = ""
      · simp only [if_pos h1, List.filter_cons]
        simp only [h1]
        simp [ih seen]
      · simp only [if_neg h1]
        by_cases h2 : (blocked.contains (key r) || seen.contains (key r)) = true
        · simp only [if_pos h2, List.filter_cons]
          have : (key r == "") = false := by simp [h1]
          simp [this, ih seen]
        · simp only [if_neg h2, List.filter_cons]
          have : (key r == "") = false := by simp [h1]
          simp [this, ih seen, ih (key r :: seen)]

theorem dedupeLoop_fresh_keys (key : Obj → String) (blocked : List String) :
    ∀ rows seen,
      (∀ r ∈ dedupeLoop key blocked rows seen, key r ≠ "" →
        blocked.contains (key r) = false ∧ seen.contains (key r) = false) ∧
      List.Pairwise (fun a b => key a = "" ∨ key a ≠ key b)
        (dedupeLoop key blocked rows seen) := by
  intro rows
  induction rows with
  | nil => intro seen; exact ⟨by intro r h; simp [dedupeLoop] at h, by simp [dedupeLoop]⟩
  | cons r rs ih =>
      intro seen
      unfold dedupeLoop
      by_cases h1 : key r = ""
      · simp only [if_pos h1]
        refine ⟨?_, ?_⟩
        · intro q hq hkq
          rcases List.mem_cons.1 hq with h | h
          · exact absurd (h ▸ hkq) (by simp [h1])
          · exact (ih seen).1 q h hkq
        · exact List.Pairwise.cons (fun q _ => Or.inl h1) (ih seen).2
      · simp only [if_neg h1]
        by_cases h2 : (blocked.contains (key r) || seen.contains (key r)) = true
        · simp only [if_pos h2]
          exact ih seen
        · simp only [if_neg h2]
          have h2' : (blocked.contains (key r) || seen.contains (key r)) = false := by
            simpa using h2
          rcases Bool.or_eq_false_iff.1 h2' with ⟨hb, hs⟩
          refine ⟨?_, ?_⟩
          · intro q hq hkq
            rcases List.mem_cons.1 hq with h | h
            · subst h
              exact ⟨hb, hs⟩
            · have := ((ih (key r :: seen)).1 q h hkq).2
              have hcons := this
              rw [List.contains_cons] at hcons
              rcases Bool.or_eq_false_iff.1 hcons with ⟨_, hrest⟩
              exact ⟨((ih (key r :: seen)).1 q h hkq).1, hrest⟩
          · refine List.Pairwise.cons ?_ (ih (key r :: seen)).2
            intro q hq
            by_cases hkq : key q = ""
            · exact Or.inr (fun hc => h1 (hc.trans hkq))
            · have := ((ih (key r :: seen)).1 q hq hkq).2
              rw [List.contains_cons] at this
              rcases Bool.or_eq_false_iff.1 this with ⟨hne, _⟩
              refine Or.inr (fun hc => ?_)
              rw [hc] at hne
              simp at hne

theorem dedupeLoop_first_kept (key : Obj → String) (blocked : List String) :
    ∀ rs1 (r : Obj) rs2 seen, key r ≠ "" →
      blocked.contains (key r) = false → seen.contains (key r) = false →
      (∀ q ∈ rs1, key q ≠ key r) →
      r ∈ dedupeLoop key blocked (rs1 ++ r :: rs2) seen := by
  intro rs1
  induction rs1 with
  | nil =>
      intro r rs2 seen hk hb hs _
      unfold dedupeLoop
      simp only [List.nil_append]
      rw [if_neg hk, hb, hs]
      simp
  | cons q rs1 ih =>
      intro r rs2 seen hk hb hs hfirst
      have hqr : key q ≠ key r := hfirst q (by simp)
      have hrest : ∀ p ∈ rs1, key p ≠ key r := fun p hp =>
        hfirst p (List.mem_cons_of_mem _ hp)
      unfold dedupeLoop
      simp only [List.cons_append]
      by_cases h1 : key q = ""
      · rw [if_pos h1]
        exact List.mem_cons_of_mem _ (ih r rs2 seen hk hb hs hrest)
      · rw [if_neg h1]
        by_cases h2 : (blocked.contains (key q) || seen.contains (key q)) = true
        · rw [if_pos h2]
          exact ih r rs2 seen hk hb hs hrest
        · rw [if_neg h2]
          refine List.mem_cons_of_mem _ (ih r rs2 (key q :: seen) hk hb ?_ hrest)
          rw [List.contains_cons]
          simp only [Bool.or_eq_false_iff]
          refine ⟨?_, hs⟩
          simp only [beq_eq_false_iff_ne]
          exact fun h => hqr h.symm

/-- C10: the runSignalHire save path filters the extracted batch before
appending: rows keep their order (a sublist), every row with an empty
LinkedIn URL is kept, the retained rows' nonempty normalized URLs are
pairwise distinct and none of them is in the URL set built from the output
file, and the first batch row carrying each fresh URL is retained. -/
theorem runSignalHire_dedupe_filter (records rows : List Obj) :
    List.Sublist (dedupeNewRows (buildExistingUrls records) rows []) rows ∧
    (dedupeNewRows (buildExistingUrls records) rows []).filter
        (fun r => urlKey r == "") =
      rows.filter (fun r => urlKey r == "") ∧
    (∀ r ∈ dedupeNewRows (buildExistingUrls records) rows [], urlKey r ≠ "" →
      (buildExistingUrls records).contains (urlKey r) = false) ∧
    List.Pairwise (fun a b => urlKey a = "" ∨ urlKey a ≠ urlKey b)
      (dedupeNewRows (buildExistingUrls records) rows []) ∧
    (∀ rs1 r rs2, rows = rs1 ++ r :: rs2 → urlKey r ≠ "" →
      (buildExistingUrls records).contains (urlKey r) = false →
      (∀ q ∈ rs1, urlKey q ≠ urlKey r) →
      r ∈ dedupeNewRows (buildExistingUrls records) rows []) := by
  refine ⟨dedupeLoop_sublist urlKey _ rows [],
    dedupeLoop_keeps_empty urlKey _ rows [],
    fun r hr hk => ((dedupeLoop_fresh_keys urlKey _ rows []).1 r hr hk).1,
    (dedupeLoop_fresh_keys urlKey _ rows []).2,
    fun rs1 r rs2 heq hk hb hfirst => ?_⟩
  rw [heq]
  exact dedupeLoop_first_kept urlKey _ rs1 r rs2 [] hk hb (by simp) hfirst

/-- C10 (witness): with one record already in the file under URL 'A', a
batch row whose URL is fresh is retained by the filter. -/
theorem runSignalHire_dedupe_filter_witness :
    [("person_title", "B")] ∈
      dedupeNewRows (buildExistingUrls [[("LinkedIn URL", "A")]])
        [[("person_title", "a")], [("person_title", "B")]] [] := by
  have h := runSignalHire_dedupe_filter [[("LinkedIn URL", "A")]]
    [[("person_title", "a")], [("person_title", "B")]]
  exact h.2.2.2.2 [[("person_title", "a")]] [("person_title", "B")] [] rfl
    (by decide) (by decide) (by decide)

/-! ### Association list key lemmas for the scheduler invariant -/

theorem alSet_map_fst {α : Type} (l : List (String × α)) (k : String) (v : α) :
    (alSet l k v).map Prod.fst =
      if (alGet l k).isSome then l.map Prod.fst else l.map Prod.fst ++ [k] := by
  induction l with
  | nil => simp [alSet, alGet]
  | cons p rest ih =>
      by_cases hp : p.1 = k
      · simp [alSet, alGet, hp]
      · simp only [alSet, if_neg hp, alGet, List.map_cons]
        rw [ih]
        by_cases hr : (alGet rest k).isSome
        · simp [hr]
        · simp [hr]

theorem alGet_eq_none_iff {α : Type} (l : List (String × α)) (k : String) :
    alGet l k = none ↔ k ∉ l.map Prod.fst := by
  induction l with
  | nil => simp [alGet]
  | cons p rest ih =>
      by_cases hp : p.1 = k
      · simp [alGet, hp]
      · simp only [alGet, if_neg hp, List.map_cons, List.mem_cons]
        rw [ih]
        constructor
        · intro h hmem
          rcases hmem with h1 | h2
          · exact hp h1.symm
          · exact h h2
        · intro h hmem
          exact h (Or.inr hmem)

theorem alGet_isSome_of_mem {α : Type} {l : List (String × α)} {p : String × α}
    (h : p ∈ l) : (alGet l p.1).isSome := by
  induction l with
  | nil => simp at h
  | cons q rest ih =>
      rcases List.mem_cons.1 h with h1 | h2
      · subst h1
        simp [alGet]
      · by_cases hq : q.1 = p.1
        · simp [alGet, hq]
        · simpa [alGet, hq] using ih h2

theorem nodup_keys_alSet {α : Type} (l : List (String × α)) (k : String) (v : α)
    (hn : (l.map Prod.fst).Nodup) : ((alSet l k v).map Prod.fst).Nodup := by
  rw [alSet_map_fst]
  by_cases h : (alGet l k).isSome
  · simpa [h] using hn
  · have hk : k ∉ l.map Prod.fst := by
      rw [← alGet_eq_none_iff]
      exact Option.not_isSome_iff_eq_none.1 h
    simp only [h, if_neg, Bool.false_eq_true, not_false_iff]
    rw [List.nodup_append]
    refine ⟨hn, List.nodup_singleton k, ?_⟩
    intro a ha hb
    rw [List.mem_singleton] at hb
    subst hb
    exact hk ha

theorem mem_alSet_nodup {α : Type} {l : List (String × α)} {k : String} {v : α}
    {q : String × α} (hn : (l.map Prod.fst).Nodup) (hq : q ∈ alSet l k v) :
    q = (k, v) ∨ (q ∈ l ∧ ¬(q.1 = k)) := by
  induction l with
  | nil =>
      simp [alSet] at hq
      exact Or.inl hq
  | cons p rest ih =>
      by_cases hp : p.1 = k
      · rw [alSet, if_pos hp] at hq
        rcases List.mem_cons.1 hq with h1 | h2
        · exact Or.inl h1
        · refine Or.inr ⟨List.mem_cons_of_mem _ h2, ?_⟩
          intro hqk
          have hkeys : p.1 ∉ rest.map Prod.fst := (List.nodup_cons.1 hn).1
          exact hkeys (by
            rw [hp, ← hqk]
            exact List.mem_map_of_mem Prod.fst h2)
      · rw [alSet, if_neg hp] at hq
        rcases List.mem_cons.1 hq with h1 | h2
        · subst h1
          exact Or.inr ⟨List.mem_cons_self _ _, hp⟩
        · rcases ih (List.nodup_cons.1 hn).2 h2 with h | ⟨hmem, hne⟩
          · exact Or.inl h
          · exact Or.inr ⟨List.mem_cons_of_mem _ hmem, hne⟩

theorem length_le_one_keys_const {α : Type} (l : List (String × α)) (c : String)
    (hn : (l.map Prod.fst).Nodup) (hc : ∀ p ∈ l, p.1 = c) : l.length ≤ 1 := by
  cases l with
  | nil => simp
  | cons p rest =>
      cases rest with
      | nil => simp
      | cons q rest2 =>
          exfalso
          have hp : p.1 = c := hc p (by simp)
          have hq : q.1 = c := hc q (by simp)
          have : p.1 ∉ (q :: rest2).map Prod.fst := by
            simpa using (List.nodup_cons.1 hn).1
          exact this (by
            rw [hp, ← hq]
            exact List.mem_map_of_mem Prod.fst (List.mem_cons_self _ _))

/-! ### Scheduler invariant preservation -/

theorem runningCount_le_one_of_inv (s : Sched) (hs : SchedInv s) :
    runningCount s ≤ 1 := by
  obtain ⟨hn, hb⟩ := hs
  unfold runningCount
  cases hcur : s.current with
  | none =>
      have : s.jobs.filter (fun p => p.2 == JState.running) = [] := by
        rw [List.filter_eq_nil_iff]
        intro p hp hrun
        have := (hb p hp (by simpa using hrun)).1
        rw [hcur] at this
        exact Option.noConfusion this
      simp [this]
  | some c =>
      apply length_le_one_keys_const _ c
      · exact List.Nodup.sublist (List.Sublist.map Prod.fst (List.filter_sublist _)) hn
      · intro p hp
        have hmem := List.mem_of_mem_filter hp
        have hrun : p.2 = JState.running := by
          simpa using List.of_mem_filter hp
        have := (hb p hmem hrun).1
        rw [hcur] at this
        exact (Option.some.inj this).symm

theorem preemptCurrent_no_running (s : Sched) (hs : SchedInv s) :
    ∀ p ∈ (preemptCurrent s).jobs, ¬ p.2 = JState.running := by
  obtain ⟨hn, hb⟩ := hs
  intro p hp hrun
  cases hcur : s.current with
  | none =>
      simp only [preemptCurrent, hcur] at hp
      have := (hb p hp hrun).1
      rw [hcur] at this
      exact Option.noConfusion this
  | some c =>
      simp only [preemptCurrent, hcur] at hp
      by_cases hcond : s.isScraping = true ∧ (alGet s.jobs c).isSome
      · rw [if_pos hcond] at hp
        simp only at hp
        rcases mem_alSet_nodup hn hp with h1 | ⟨hmem, hne⟩
        · rw [h1] at hrun
          exact JState.noConfusion hrun
        · have := (hb p hmem hrun).1
          rw [hcur] at this
          exact hne (Option.some.inj this).symm
      · rw [if_neg hcond] at hp
        rcases Decidable.not_and_iff_or_not.1 hcond with h | h
        · exact h (hb p hp hrun).2.1
        · have := (hb p hp hrun).1
          rw [hcur] at this
          have hpc : p.1 = c := (Option.some.inj this).symm
          exact h (hpc ▸ alGet_isSome_of_mem hp)

theorem preemptCurrent_keys_nodup (s : Sched) (hn : (s.jobs.map Prod.fst).Nodup) :
    ((preemptCurrent s).jobs.map Prod.fst).Nodup := by
  cases hcur : s.current with
  | none => simpa only [preemptCurrent, hcur] using hn
  | some c =>
      simp only [preemptCurrent, hcur]
      by_cases hcond : s.isScraping = true ∧ (alGet s.jobs c).isSome
      · rw [if_pos hcond]
        exact nodup_keys_alSet _ _ _ hn
      · rw [if_neg hcond]
        exact hn

theorem schedInv_step (s : Sched) (e : Ev) (hs : SchedInv s) (ht : tameEv s e) :
    SchedInv (step s e) := by
  obtain ⟨hn, hb⟩ := hs
  cases e with
  | create id =>
      refine ⟨nodup_keys_alSet _ _ _ (preemptCurrent_keys_nodup s hn), ?_⟩
      intro p hp hrun
      rcases mem_alSet_nodup (preemptCurrent_keys_nodup s hn) hp with h1 | ⟨hmem, _⟩
      · rw [h1]
        exact ⟨rfl, rfl, rfl⟩
      · exact absurd hrun (preemptCurrent_no_running s ⟨hn, hb⟩ p hmem)
  | runJob id =>
      simp only [step]
      by_cases h1 : (alGet s.jobs id).isNone
      · rw [if_pos h1]
        exact ⟨hn, hb⟩
      · rw [if_neg h1]
        by_cases h2 : s.current = some id ∧ s.isScraping = true
        · rw [if_pos h2]
          exact ⟨hn, hb⟩
        · rw [if_neg h2]
          refine ⟨nodup_keys_alSet _ _ _ (preemptCurrent_keys_nodup s hn), ?_⟩
          intro p hp hrun
          rcases mem_alSet_nodup (preemptCurrent_keys_nodup s hn) hp with hh | ⟨hmem, _⟩
          · rw [hh]
            exact ⟨rfl, rfl, rfl⟩
          · exact absurd hrun (preemptCurrent_no_running s ⟨hn, hb⟩ p hmem)
  | resume =>
      cases hcur : s.current with
      | none =>
          simp only [step, hcur]
          exact ⟨hn, hb⟩
      | some c =>
          simp only [step, hcur]
          by_cases hcond : s.isPaused = true ∧ (alGet s.jobs c).isSome
          · rw [if_pos hcond]
            refine ⟨nodup_keys_alSet _ _ _ hn, ?_⟩
            intro p hp hrun
            rcases mem_alSet_nodup hn hp with h1 | ⟨hmem, _⟩
            · rw [h1]
              exact ⟨hcur ▸ rfl, rfl, rfl⟩
            · have := (hb p hmem hrun).2.2
              rw [hcond.1] at this
              exact Bool.noConfusion this
          · rw [if_neg hcond]
            exact ⟨hn, hb⟩
  | stopCurrent =>
      cases hcur : s.current with
      | none =>
          simp only [step, hcur]
          exact ⟨hn, hb⟩
      | some c =>
          simp only [step, hcur]
          by_cases hcond : s.isScraping = true ∧ (alGet s.jobs c).isSome
          · rw [if_pos hcond]
            refine ⟨nodup_keys_alSet _ _ _ hn, ?_⟩
            intro p hp hrun
            rcases mem_alSet_nodup hn hp with h1 | ⟨hmem, hne⟩
            · rw [h1] at hrun
              exact JState.noConfusion hrun
            · have := (hb p hmem hrun).1
              rw [hcur] at this
              exact absurd (Option.some.inj this).symm hne
          · rw [if_neg hcond]
            exact ⟨hn, hb⟩
  | loopEnter id =>
      simp only [step]
      by_cases hc : s.runners.contains (id, false)
      · rw [if_pos hc]
        refine ⟨hn, ?_⟩
        intro p hp hrun
        exact ⟨(hb p hp hrun).1, rfl, rfl⟩
      · rw [if_neg hc]
        exact ⟨hn, hb⟩
  | checkpoint id =>
      simp only [step]
      by_cases hc : s.runners.contains (id, true)
      · rw [if_pos hc]
        by_cases hcond : s.current ≠ some id ∨ s.pauseRequested = true
        · rw [if_pos hcond]
          refine ⟨nodup_keys_alSet _ _ _ hn, ?_⟩
          intro p hp hrun
          rcases mem_alSet_nodup hn hp with h1 | ⟨hmem, hne⟩
          · rw [h1] at hrun
            exact JState.noConfusion hrun
          · have h2 := (hb p hmem hrun).1
            have hcur : s.current = some id := ht
            rw [hcur] at h2
            exact absurd (Option.some.inj h2).symm hne
        · rw [if_neg hcond]
          exact ⟨hn, hb⟩
      · rw [if_neg hc]
        exact ⟨hn, hb⟩
  | complete id =>
      simp only [step]
      by_cases hc : s.runners.contains (id, true)
      · rw [if_pos hc]
        refine ⟨nodup_keys_alSet _ _ _ hn, ?_⟩
        intro p hp hrun
        rcases mem_alSet_nodup hn hp with h1 | ⟨hmem, hne⟩
        · rw [h1] at hrun
          exact JState.noConfusion hrun
        · have h2 := (hb p hmem hrun).1
          have hcur : s.current = some id := ht
          rw [hcur] at h2
          exact absurd (Option.some.inj h2).symm hne
      · rw [if_neg hc]
        exact ⟨hn, hb⟩
  | navFail id =>
      simp only [step]
      by_cases hc : s.runners.contains (id, true)
      · rw [if_pos hc]
        refine ⟨nodup_keys_alSet _ _ _ hn, ?_⟩
        intro p hp hrun
        rcases mem_alSet_nodup hn hp with h1 | ⟨hmem, hne⟩
        · rw [h1] at hrun
          exact JState.noConfusion hrun
        · have h2 := (hb p hmem hrun).1
          have hcur : s.current = some id := ht
          rw [hcur] at h2
          exact absurd (Option.some.inj h2).symm hne
      · rw [if_neg hc]
        exact ⟨hn, hb⟩

theorem schedInv_of_tame (s : Sched) (h : TameReach s) : SchedInv s := by
  induction h with
  | init => exact ⟨by simp [Sched.initial], by intro p hp; simp [Sched.initial] at hp⟩
  | next s e hs ht ih => exact schedInv_step s e ih ht

/-- C2 (counterexample): interleaving a stale runner's checkpoint between
two start requests defeats the invariant.  Create A (its runner enters the
loop), create B — the handler pauses A and marks B running — and then A's
stale runner hits its loop-head checkpoint: seeing it is no longer
current, it sets isScraping to false (scrapeRoutes.js line 390).  A third
create now skips the preemption block (guarded by isScraping, line 645)
and marks C running while B is still running: two jobs are running at one
observed instant. -/
theorem singleRunningJob_cex :
    runningCount
      ([Ev.create "A", Ev.loopEnter "A", Ev.create "B", Ev.checkpoint "A",
        Ev.create "C"].foldl step Sched.initial) = 2 := by decide

/-- C2 (amended): for every sequence of create/run/resume (and stop)
handler executions and runner transitions belonging to the current job —
that is, excluding the stale-runner checkpoints that interleaving can
produce — at most one job in the cache is in state running at any observed
instant; each start handler first pauses the current running job before
marking the target job running. -/
theorem singleRunningJob_amended (s : Sched) (h : TameReach s) :
    runningCount s ≤ 1 :=
  runningCount_le_one_of_inv s (schedInv_of_tame s h)

/-- C2 (witness): the amended theorem applied to the concrete tame trace
create A then create B. -/
theorem singleRunningJob_amended_witness :
    runningCount (step (step Sched.initial (Ev.create "A")) (Ev.create "B")) ≤ 1 :=
  singleRunningJob_amended _
    (TameReach.next _ _ (TameReach.next _ _ TameReach.init trivial) trivial)

/-! ### Job Runner termination paths -/

/-- C1 (failing input): when clickNextPage itself throws during page
processing (for example the page has crashed, so the page.url() call in
its URL-rescue step throws), the per-page catch at scrapeRoutes.js line
572 merely sets continueScrape to false, the loop exits, and the
completion epilogue at lines 578-593 marks the job completed — although
the Pagination Advancer never reported exhaustion (no invocation returned
an outcome at all).  The spec requires paused on every error path. -/
theorem runScrape_error_completed_bug :
    runScrape ⟨JState.running, none, none, 1, "start", 0, 0⟩
      ⟨true, true, true, true, true,
        [⟨false, false, some 0, false, some 0, false, none, "after"⟩]⟩ =
    ⟨⟨JState.completed, none, none, 1, "start", 0, 0⟩, RunExit.completedEnd,
      true, true, none, true⟩ := by decide

/-- C3 (counterexample): a third-party login failure pauses the job but
sets no stateReason and no message (scrapeRoutes.js lines 317-331 update
only state and counters), and returns from inside the try block without
closing the browser context — so the session is not released either.  Only
the expired-LinkedIn-cookie path behaves as the claim describes. -/
theorem runScrape_precondition_cex :
    runScrape ⟨JState.running, none, none, 1, "start", 0, 0⟩
      ⟨true, true, false, true, true, []⟩ =
    ⟨⟨JState.paused, none, none, 1, "start", 0, 0⟩,
      RunExit.thirdPartyLoginFailed, true, false, none, false⟩ := by decide

/-- C3 (amended): every precondition failure leaves the job paused and on
no such path is the job reported completed or dropped; but only the
expired-LinkedIn-cookie path sets stateReason ('cookie_expired') and a
human-readable message and closes the browser.  The missing-cookie-file
path pauses before any browser is launched and leaves stateReason and
message untouched; a third-party login failure pauses with stateReason and
message untouched and leaves the browser context open. -/
theorem runScrape_precondition_amended (job0 : RJob) (inp : RunInputs)
    (hp : inp.jobPresent = true)
    (hfail : inp.cookieFile = false ∨ inp.coLogin = false ∨ inp.shLogin = false ∨
      inp.liLoggedIn = false) :
    ((runScrape job0 inp).job.state = JState.paused ∧
      (runScrape job0 inp).exit ≠ RunExit.completedEnd ∧
      (runScrape job0 inp).exit ≠ RunExit.noJob) ∧
    (inp.cookieFile = false →
      (runScrape job0 inp).browserLaunched = false ∧
      (runScrape job0 inp).job.stateReason = job0.stateReason ∧
      (runScrape job0 inp).job.message = job0.message) ∧
    (inp.cookieFile = true → (inp.coLogin = false ∨ inp.shLogin = false) →
      (runScrape job0 inp).browserLaunched = true ∧
      (runScrape job0 inp).browserClosed = false ∧
      (runScrape job0 inp).job.stateReason = job0.stateReason ∧
      (runScrape job0 inp).job.message = job0.message) ∧
    (inp.cookieFile = true → inp.coLogin = true → inp.shLogin = true →
      (runScrape job0 inp).browserClosed = true ∧
      (runScrape job0 inp).job.stateReason = some "cookie_expired" ∧
      (runScrape job0 inp).job.message =
        some "LinkedIn cookie expired. Please update your cookie.") := by
  cases hcf : inp.cookieFile with
  | false =>
      simp [runScrape, hp, hcf]
  | true =>
      cases hco : inp.coLogin with
      | false =>
          simp [runScrape, hp, hcf, hco]
      | true =>
          cases hsh : inp.shLogin with
          | false =>
              simp [runScrape, hp, hcf, hco, hsh]
          | true =>
              have hli : inp.liLoggedIn = false := by
                rcases hfail with h | h | h | h
                · rw [h] at hcf; exact Bool.noConfusion hcf
                · rw [h] at hco; exact Bool.noConfusion hco
                · rw [h] at hsh; exact Bool.noConfusion hsh
                · exact h
              simp [runScrape, hp, hcf, hco, hsh, hli]

/-- C3 (witness): the amended theorem applied to a run with a missing
LinkedIn cookie file. -/
theorem runScrape_precondition_amended_witness :
    (runScrape ⟨JState.running, none, none, 1, "start", 0, 0⟩
      ⟨true, false, true, true, true, []⟩).job.state = JState.paused :=
  (runScrape_precondition_amended ⟨JState.running, none, none, 1, "start", 0, 0⟩
    ⟨true, false, true, true, true, []⟩ rfl (Or.inl rfl)).1.1

/-! ### CSV dedup: counterexample to byte-level idempotence -/

/-- C8 (counterexample): dedup is not byte-level idempotent.  On the
single-column file 'LinkedIn URL\nx\n""\n' the first run keeps the
quoted-empty row (rows with an empty key are always retained) and
serializes it as an empty line; the second run's parse skips that empty
line (skip_empty_lines), so the second output drops the row and differs
from the first. -/
theorem deduplicateCsv_not_idempotent_cex :
    deduplicateCsv
        (deduplicateCsv (some "LinkedIn URL\nx\n\"\"\n") DEFAULT_KEY_ALIASES)
        DEFAULT_KEY_ALIASES ≠
      deduplicateCsv (some "LinkedIn URL\nx\n\"\"\n") DEFAULT_KEY_ALIASES := by
  decide

/-! ### String and trimming lemmas for the CSV round trip -/

theorem strMk_data (s : String) : String.mk s.data = s := by
  cases s
  rfl

theorem data_append (a b : String) : (a ++ b).data = a.data ++ b.data := by
  cases a
  cases b
  rfl

theorem trimChars_cons_ws (c : Char) (t : List Char) (h : isWSChar c = true) :
    trimChars (c :: t) = trimChars t := by
  simp [trimChars, List.dropWhile_cons, h]

theorem dropWhile_length_le (p : Char → Bool) (l : List Char) :
    (l.dropWhile p).length ≤ l.length := by
  induction l with
  | nil => simp
  | cons c t ih =>
      rw [List.dropWhile_cons]
      by_cases h : p c = true
      · simp only [h, if_pos]
        exact Nat.le_trans ih (Nat.le_succ _)
      · simp [h]

theorem trimChars_length_le (l : List Char) : (trimChars l).length ≤ l.length := by
  unfold trimChars
  calc (((l.dropWhile isWSChar).reverse.dropWhile isWSChar).reverse).length
      = ((l.dropWhile isWSChar).reverse.dropWhile isWSChar).length :=
        List.length_reverse _
    _ ≤ (l.dropWhile isWSChar).reverse.length := dropWhile_length_le _ _
    _ = (l.dropWhile isWSChar).length := List.length_reverse _
    _ ≤ l.length := dropWhile_length_le _ _

theorem head_not_ws_of_trimChars_eq {c : Char} {t : List Char}
    (h : trimChars (c :: t) = c :: t) : isWSChar c = false := by
  by_contra hw
  rw [Bool.not_eq_false] at hw
  have h2 := trimChars_cons_ws c t hw
  rw [h] at h2
  have h3 := trimChars_length_le t
  rw [← h2] at h3
  simp at h3

theorem not_special_facts {c : Char} (h : isCsvSpecial c = false) :
    ¬(c = ',') ∧ ¬(c = '"') ∧ ¬(c = '\n') ∧ ¬(c = '\r') := by
  simp only [isCsvSpecial, Bool.or_eq_false_iff, decide_eq_false_iff_not] at h
  exact ⟨h.1.1.1, h.1.1.2, h.1.2, h.2⟩

theorem trimStr_data_eq {v : String} (h : trimStr v = v) :
    trimChars v.data = v.data :=
  congrArg String.data h

theorem no_special_of_not_needsQuote {v : String} (h : needsQuote v = false) :
    ∀ c ∈ v.data, isCsvSpecial c = false := by
  intro c hc
  unfold needsQuote at h
  rw [List.any_eq_false] at h
  simpa using h c hc

/-! ### Lexer stepping lemmas -/

theorem lex_unquoted_run (cs : List Char) (h : ∀ c ∈ cs, isCsvSpecial c = false) :
    ∀ tail facc racc out,
      lexLoop LMode.unquoted (cs ++ tail) facc racc out true =
        lexLoop LMode.unquoted tail (cs.reverse ++ facc) racc out true := by
  induction cs with
  | nil => intro tail facc racc out; simp
  | cons c cs' ih =>
      intro tail facc racc out
      obtain ⟨h1, h2, h3, _⟩ := not_special_facts (h c (List.mem_cons_self _ _))
      rw [List.cons_append]
      show lexLoop LMode.unquoted (c :: (cs' ++ tail)) facc racc out true = _
      simp only [lexLoop]
      rw [if_neg h3, if_neg h2, if_neg h1]
      rw [show (cs' ++ tail) = cs' ++ tail from rfl]
      rw [ih (fun x hx => h x (List.mem_cons_of_mem _ hx)) tail (c :: facc) racc out]
      congr 1
      simp

theorem lex_inQuotes_run (cs : List Char) :
    ∀ tail facc racc out,
      lexLoop LMode.inQuotes (escQuotes cs ++ '"' :: tail) facc racc out true =
        lexLoop LMode.quoteSeen tail (cs.reverse ++ facc) racc out true := by
  induction cs with
  | nil =>
      intro tail facc racc out
      show lexLoop LMode.inQuotes ('"' :: tail) facc racc out true = _
      simp only [lexLoop, if_true]
      simp
  | cons c cs' ih =>
      intro tail facc racc out
      by_cases hc : c = '"'
      · subst hc
        show lexLoop LMode.inQuotes
          ('"' :: '"' :: (escQuotes cs' ++ '"' :: tail)) facc racc out true = _
        simp only [lexLoop, if_true]
        rw [ih tail ('"' :: facc) racc out]
        congr 1
        simp
      · show lexLoop LMode.inQuotes
          ((if c = '"' then '"' :: '"' :: escQuotes cs' else c :: escQuotes cs') ++
            '"' :: tail) facc racc out true = _
        rw [if_neg hc, List.cons_append]
        simp only [lexLoop]
        rw [if_neg hc]
        rw [ih tail (c :: facc) racc out]
        congr 1
        simp

theorem emitField_data_quoted {v : String} (hq : needsQuote v = true) :
    (emitField v).data = '"' :: (escQuotes v.data ++ ['"']) := by
  simp only [emitField, hq, if_pos]
  rw [data_append, data_append]
  rfl

theorem emitField_data_unquoted {v : String} (hq : needsQuote v = false) :
    (emitField v).data = v.data := by
  simp [emitField, hq]

theorem lex_fieldStart_quote (rest : List Char) (racc : List String)
    (out : List (List String)) (hc : Bool) :
    lexLoop LMode.fieldStart ('"' :: rest) [] racc out hc =
      lexLoop LMode.inQuotes rest [] racc out true := by
  simp [lexLoop]

theorem lex_fieldStart_comma (rest : List Char) (racc : List String)
    (out : List (List String)) (hc : Bool) :
    lexLoop LMode.fieldStart (',' :: rest) [] racc out hc =
      lexLoop LMode.fieldStart rest [] ("" :: racc) out true := by
  simp [lexLoop]

theorem lex_fieldStart_nl_push (rest : List Char) (racc : List String)
    (out : List (List String)) :
    lexLoop LMode.fieldStart ('\n' :: rest) [] racc out true =
      lexLoop LMode.fieldStart rest [] [] ((("" :: racc).reverse) :: out) false := by
  simp [lexLoop]

theorem lex_fieldStart_other (c : Char) (rest : List Char) (racc : List String)
    (out : List (List String)) (hc : Bool) (h1 : isCsvSpecial c = false)
    (h2 : isWSChar c = false) :
    lexLoop LMode.fieldStart (c :: rest) [] racc out hc =
      lexLoop LMode.unquoted rest [c] racc out true := by
  obtain ⟨hc1, hc2, hc3, hc4⟩ := not_special_facts h1
  have hw : ¬(c = ' ') ∧ ¬(c = '\t') := by
    simp only [isWSChar, Bool.or_eq_false_iff, decide_eq_false_iff_not] at h2
    exact ⟨h2.1.1.1, h2.1.1.2⟩
  simp only [lexLoop]
  rw [if_neg hc3, if_neg hc4, if_neg (by simp [hw.1, hw.2]), if_neg hc2, if_neg hc1]

theorem lex_unquoted_comma (rest : List Char) (facc : List Char)
    (racc : List String) (out : List (List String)) :
    lexLoop LMode.unquoted (',' :: rest) facc racc out true =
      lexLoop LMode.fieldStart rest [] (mkTrimmed facc :: racc) out true := by
  simp [lexLoop]

theorem lex_unquoted_nl (rest : List Char) (facc : List Char)
    (racc : List String) (out : List (List String)) :
    lexLoop LMode.unquoted ('\n' :: rest) facc racc out true =
      lexLoop LMode.fieldStart rest [] []
        (((mkTrimmed facc :: racc).reverse) :: out) false := by
  simp [lexLoop]

theorem lex_quoteSeen_comma (rest : List Char) (facc : List Char)
    (racc : List String) (out : List (List String)) :
    lexLoop LMode.quoteSeen (',' :: rest) facc racc out true =
      lexLoop LMode.fieldStart rest [] (mkRaw facc :: racc) out true := by
  simp [lexLoop]

theorem lex_quoteSeen_nl (rest : List Char) (facc : List Char)
    (racc : List String) (out : List (List String)) :
    lexLoop LMode.quoteSeen ('\n' :: rest) facc racc out true =
      lexLoop LMode.fieldStart rest [] []
        (((mkRaw facc :: racc).reverse) :: out) false := by
  simp [lexLoop]

theorem lex_field_comma (v : String) (hv : trimStr v = v) (tail : List Char)
    (racc : List String) (out : List (List String)) :
    lexLoop LMode.fieldStart ((emitField v).data ++ ',' :: tail) [] racc out true =
      lexLoop LMode.fieldStart tail [] (v :: racc) out true := by
  by_cases hq : needsQuote v = true
  · rw [emitField_data_quoted hq, List.cons_append, List.append_assoc,
      List.singleton_append]
    rw [lex_fieldStart_quote]
    rw [lex_inQuotes_run v.data (',' :: tail) [] racc out]
    rw [lex_quoteSeen_comma]
    have hmk : mkRaw (v.data.reverse ++ []) = v := by
      simp [mkRaw, strMk_data]
    rw [hmk]
  · have hq' : needsQuote v = false := Bool.not_eq_true _ ▸ hq
    have hspec := no_special_of_not_needsQuote hq'
    rw [emitField_data_unquoted hq']
    cases hd : v.data with
    | nil =>
        have hv0 : v = "" := by
          have h0 := strMk_data v
          rw [hd] at h0
          exact h0.symm
        rw [List.nil_append, lex_fieldStart_comma, hv0]
    | cons c0 cs' =>
        have htc : trimChars v.data = v.data := trimStr_data_eq hv
        rw [hd] at htc
        have hws : isWSChar c0 = false := head_not_ws_of_trimChars_eq htc
        have hsp0 : isCsvSpecial c0 = false :=
          hspec c0 (by rw [hd]; exact List.mem_cons_self _ _)
        rw [List.cons_append]
        rw [lex_fieldStart_other c0 _ racc out true hsp0 hws]
        rw [lex_unquoted_run cs'
          (fun x hx => hspec x (by rw [hd]; exact List.mem_cons_of_mem _ hx))
          (',' :: tail) [c0] racc out]
        rw [lex_unquoted_comma]
        have hmk : mkTrimmed (cs'.reverse ++ [c0]) = v := by
          unfold mkTrimmed
          rw [List.reverse_append, List.reverse_singleton, List.reverse_reverse,
            List.singleton_append, htc, ← hd]
        rw [hmk]

theorem lex_field_newline (v : String) (hv : trimStr v = v) (tail : List Char)
    (racc : List String) (out : List (List String)) :
    lexLoop LMode.fieldStart ((emitField v).data ++ '\n' :: tail) [] racc out true =
      lexLoop LMode.fieldStart tail [] [] (((v :: racc).reverse) :: out) false := by
  by_cases hq : needsQuote v = true
  · rw [emitField_data_quoted hq, List.cons_append, List.append_assoc,
      List.singleton_append]
    rw [lex_fieldStart_quote]
    rw [lex_inQuotes_run v.data ('\n' :: tail) [] racc out]
    rw [lex_quoteSeen_nl]
    have hmk : mkRaw (v.data.reverse ++ []) = v := by
      simp [mkRaw, strMk_data]
    rw [hmk]
  · have hq' : needsQuote v = false := Bool.not_eq_true _ ▸ hq
    have hspec := no_special_of_not_needsQuote hq'
    rw [emitField_data_unquoted hq']
    cases hd : v.data with
    | nil =>
        have hv0 : v = "" := by
          have h0 := strMk_data v
          rw [hd] at h0
          exact h0.symm
        rw [List.nil_append, lex_fieldStart_nl_push, hv0]
    | cons c0 cs' =>
        have htc : trimChars v.data = v.data := trimStr_data_eq hv
        rw [hd] at htc
        have hws : isWSChar c0 = false := head_not_ws_of_trimChars_eq htc
        have hsp0 : isCsvSpecial c0 = false :=
          hspec c0 (by rw [hd]; exact List.mem_cons_self _ _)
        rw [List.cons_append]
        rw [lex_fieldStart_other c0 _ racc out true hsp0 hws]
        rw [lex_unquoted_run cs'
          (fun x hx => hspec x (by rw [hd]; exact List.mem_cons_of_mem _ hx))
          ('\n' :: tail) [c0] racc out]
        rw [lex_unquoted_nl]
        have hmk : mkTrimmed (cs'.reverse ++ [c0]) = v := by
          unfold mkTrimmed
          rw [List.reverse_append, List.reverse_singleton, List.reverse_reverse,
            List.singleton_append, htc, ← hd]
        rw [hmk]

theorem emitLine_cons_data (v w : String) (vs'' : List String) :
    (emitLine (v :: w :: vs'')).data =
      (emitField v).data ++ ',' :: (emitLine (w :: vs'')).data := by
  show (emitField v ++ "," ++ emitLine (w :: vs'')).data = _
  rw [data_append, data_append, List.append_assoc]
  rfl

theorem lex_line (vs : List String) (hvs : ∀ v ∈ vs, trimStr v = v) :
    ∀ tail racc out, vs ≠ [] →
      lexLoop LMode.fieldStart ((emitLine vs).data ++ '\n' :: tail) [] racc out true =
        lexLoop LMode.fieldStart tail [] [] ((racc.reverse ++ vs) :: out) false := by
  induction vs with
  | nil => intro tail racc out hne; exact absurd rfl hne
  | cons v vs' ih =>
      intro tail racc out _
      cases vs' with
      | nil =>
          show lexLoop LMode.fieldStart
            ((emitField v).data ++ '\n' :: tail) [] racc out true = _
          rw [lex_field_newline v (hvs v (by simp)) tail racc out]
          have hrv : (v :: racc).reverse = racc.reverse ++ [v] :=
            List.reverse_cons _ _
          rw [hrv]
      | cons w vs'' =>
          rw [emitLine_cons_data v w vs'', List.append_assoc, List.cons_append]
          rw [lex_field_comma v (hvs v (by simp)) _ racc out]
          rw [ih (fun x hx => hvs x (List.mem_cons_of_mem _ hx))
            tail (v :: racc) out (by simp)]
          have hrv : (v :: racc).reverse ++ (w :: vs'') =
              racc.reverse ++ (v :: w :: vs'') := by
            simp
          rw [hrv]

theorem lex_fieldStart_hc_irrel (c : Char) (rest : List Char)
    (racc : List String) (out : List (List String))
    (h1 : ¬(c = '\n')) (h2 : ¬(c = '\r')) :
    lexLoop LMode.fieldStart (c :: rest) [] racc out false =
      lexLoop LMode.fieldStart (c :: rest) [] racc out true := by
  simp only [lexLoop]
  rw [if_neg h1, if_neg h1, if_neg h2, if_neg h2]

theorem emitField_head_not_nl (v : String) (c : Char) (cs : List Char)
    (h : (emitField v).data = c :: cs) : ¬(c = '\n') ∧ ¬(c = '\r') := by
  by_cases hq : needsQuote v = true
  · rw [emitField_data_quoted hq] at h
    injection h with h1 _
    subst h1
    exact ⟨by decide, by decide⟩
  · have hq' : needsQuote v = false := Bool.not_eq_true _ ▸ hq
    rw [emitField_data_unquoted hq'] at h
    have hc : c ∈ v.data := by
      rw [h]
      exact List.mem_cons_self _ _
    obtain ⟨_, _, h3, h4⟩ := not_special_facts (no_special_of_not_needsQuote hq' c hc)
    exact ⟨h3, h4⟩

theorem emitLine_head_not_nl (vs : List String) (c : Char) (cs : List Char)
    (h : (emitLine vs).data = c :: cs) : ¬(c = '\n') ∧ ¬(c = '\r') := by
  cases vs with
  | nil => exact absurd h (by simp [emitLine])
  | cons v vs' =>
      cases vs' with
      | nil => exact emitField_head_not_nl v c cs h
      | cons w vs'' =>
          rw [emitLine_cons_data v w vs''] at h
          cases hef : (emitField v).data with
          | nil =>
              rw [hef, List.nil_append] at h
              injection h with h1 _
              subst h1
              exact ⟨by decide, by decide⟩
          | cons c0 cs0 =>
              rw [hef, List.cons_append] at h
              injection h with h1 _
              subst h1
              exact emitField_head_not_nl v c0 cs0 hef

theorem lex_lines (lss : List (List String))
    (h1 : ∀ vs ∈ lss, ∀ v ∈ vs, trimStr v = v)
    (h2 : ∀ vs ∈ lss, emitLine vs ≠ "") :
    ∀ out, lexLoop LMode.fieldStart (joinLines lss).data [] [] out false =
      some (out.reverse ++ lss) := by
  induction lss with
  | nil =>
      intro out
      show lexLoop LMode.fieldStart ("" : String).data [] [] out false = _
      simp [lexLoop]
  | cons vs lss' ih =>
      intro out
      have hdata : (joinLines (vs :: lss')).data =
          (emitLine vs).data ++ '\n' :: (joinLines lss').data := by
        show (emitLine vs ++ "\n" ++ joinLines lss').data = _
        rw [data_append, data_append, List.append_assoc]
        rfl
      rw [hdata]
      have hline : emitLine vs ≠ "" := h2 vs (List.mem_cons_self _ _)
      cases hel : (emitLine vs).data with
      | nil =>
          refine absurd ?_ hline
          rw [← strMk_data (emitLine vs), hel]
      | cons c0 cs0 =>
          obtain ⟨hn1, hn2⟩ := emitLine_head_not_nl vs c0 cs0 hel
          rw [List.cons_append]
          rw [lex_fieldStart_hc_irrel c0 _ _ _ hn1 hn2]
          rw [← List.cons_append, ← hel]
          rw [lex_line vs (h1 vs (List.mem_cons_self _ _)) (joinLines lss').data [] out
            (by rintro rfl; exact hline rfl)]
          simp only [List.reverse_nil, List.nil_append]
          rw [ih (fun x hx => h1 x (List.mem_cons_of_mem _ hx))
            (fun x hx => h2 x (List.mem_cons_of_mem _ hx)) (vs :: out)]
          congr 1
          simp

theorem alSet_absent {α : Type} (o : List (String × α)) (k : String) (v : α)
    (h : alGet o k = none) : alSet o k v = o ++ [(k, v)] := by
  induction o with
  | nil => rfl
  | cons p rest ih =>
      unfold alGet at h
      unfold alSet
      by_cases hp : p.1 = k
      · rw [if_pos hp] at h
        simp at h
      · rw [if_neg hp] at h
        rw [if_neg hp, ih h, List.cons_append]

theorem alGet_append_left {α : Type} (a b : List (String × α)) (k : String)
    (h : alGet a k = none) : alGet (a ++ b) k = alGet b k := by
  induction a with
  | nil => rfl
  | cons p rest ih =>
      unfold alGet at h
      rw [List.cons_append]
      show (if p.1 = k then some p.2 else alGet (rest ++ b) k) = alGet b k
      by_cases hp : p.1 = k
      · rw [if_pos hp] at h
        simp at h
      · rw [if_neg hp] at h
        rw [if_neg hp]
        exact ih h

theorem zip_self_map {α β : Type} (g : α → β) :
    ∀ (l : List α), l.zip (l.map g) = l.map (fun x => (x, g x)) := by
  intro l
  induction l with
  | nil => rfl
  | cons x l ih =>
      show (x, g x) :: l.zip (l.map g) = (x, g x) :: l.map (fun y => (y, g y))
      rw [ih]

theorem map_fst_pairmap {α β : Type} (g : α → β) :
    ∀ (l : List α), (l.map (fun x => (x, g x))).map Prod.fst = l := by
  intro l
  induction l with
  | nil => rfl
  | cons x l ih =>
      show x :: (l.map (fun y => (y, g y))).map Prod.fst = x :: l
      rw [ih]

theorem foldl_objSet_fresh :
    ∀ (l : List (String × String)) (acc : Obj),
      (∀ p ∈ l, alGet acc p.1 = none) → (l.map Prod.fst).Nodup →
      l.foldl (fun acc kv => objSet acc kv.1 kv.2) acc = acc ++ l := by
  intro l
  induction l with
  | nil =>
      intro acc _ _
      rw [List.foldl_nil, List.append_nil]
  | cons p l ih =>
      intro acc hfresh hnd
      simp only [List.map_cons, List.nodup_cons] at hnd
      obtain ⟨hnotin, hnd'⟩ := hnd
      rw [List.foldl_cons]
      have hset : objSet acc p.1 p.2 = acc ++ [(p.1, p.2)] :=
        alSet_absent acc p.1 p.2 (hfresh p (List.mem_cons_self _ _))
      rw [hset]
      have hfresh' : ∀ q ∈ l, alGet (acc ++ [(p.1, p.2)]) q.1 = none := by
        intro q hq
        rw [alGet_append_left acc [(p.1, p.2)] q.1
          (hfresh q (List.mem_cons_of_mem _ hq))]
        have hne : ¬(p.1 = q.1) := by
          intro he
          exact hnotin (by rw [he]; exact List.mem_map_of_mem Prod.fst hq)
        show (if p.1 = q.1 then some p.2 else alGet [] q.1) = none
        rw [if_neg hne]
        rfl
      rw [ih (acc ++ [(p.1, p.2)]) hfresh' hnd']
      rw [List.append_assoc]
      rfl

theorem buildRow_of_map (names : List String) (g : String → String)
    (hnd : names.Nodup) :
    buildRow names (names.map g) = names.map (fun c => (c, g c)) := by
  unfold buildRow
  rw [zip_self_map g names]
  rw [foldl_objSet_fresh (names.map (fun c => (c, g c))) []
    (fun p _ => rfl) (by rw [map_fst_pairmap]; exact hnd)]
  rw [List.nil_append]

theorem buildRow_keys (names : List String) (g : String → String)
    (hnd : names.Nodup) :
    objKeys (buildRow names (names.map g)) = names := by
  rw [buildRow_of_map names g hnd]
  exact map_fst_pairmap g names

theorem alGet_pairmap (g : String → String) :
    ∀ (l : List String) (c : String), c ∈ l →
      alGet (l.map (fun x => (x, g x))) c = some (g c) := by
  intro l
  induction l with
  | nil => intro c hc; cases hc
  | cons x l ih =>
      intro c hc
      show (if x = c then some (g x) else alGet (l.map (fun y => (y, g y))) c) =
        some (g c)
      by_cases hx : x = c
      · rw [if_pos hx, hx]
      · rw [if_neg hx]
        rcases List.mem_cons.1 hc with h | h
        · exact absurd h.symm hx
        · exact ih c h

theorem objGet_buildRow (names : List String) (g : String → String)
    (hnd : names.Nodup) (c : String) (hc : c ∈ names) :
    objGet (buildRow names (names.map g)) c = some (g c) := by
  rw [buildRow_of_map names g hnd]
  exact alGet_pairmap g names c hc

theorem rowValues_buildRow (names : List String) (hnd : names.Nodup) (r : Obj) :
    rowValues names (buildRow names (rowValues names r)) = rowValues names r := by
  rw [show rowValues names r = names.map (fun c => (objGet r c).getD "") from rfl]
  unfold rowValues
  apply List.map_congr_left
  intro c hc
  rw [objGet_buildRow names (fun c => (objGet r c).getD "") hnd c hc]
  rfl

theorem csvKeyOf_buildRow (names : List String) (hnd : names.Nodup) (k : String)
    (hk : k ∈ names) (r : Obj) :
    csvKeyOf k (buildRow names (rowValues names r)) = csvKeyOf k r := by
  unfold csvKeyOf
  rw [show rowValues names r = names.map (fun c => (objGet r c).getD "") from rfl]
  rw [objGet_buildRow names (fun c => (objGet r c).getD "") hnd k hk]
  rfl

theorem findKeyCol_mem (header : List String) (aliases : List String) (k : String)
    (h : findKeyCol header aliases = some k) : k ∈ header := by
  induction aliases with
  | nil => exact Option.noConfusion h
  | cons a as ih =>
      unfold findKeyCol at h ih
      rw [List.findSome?_cons] at h
      cases hf : header.find? (fun hcol => lowerStr hcol = lowerStr a) with
      | some v =>
          rw [hf] at h
          have h' : some v = some k := h
          injection h' with h''
          rw [← h'']
          exact List.mem_of_find?_eq_some hf
      | none =>
          rw [hf] at h
          exact ih h

theorem find?_split {α : Type} (p : α → Bool) :
    ∀ (l : List α) (x : α), l.find? p = some x ↔
      ∃ l1 l2, l = l1 ++ x :: l2 ∧ p x = true ∧ ∀ y ∈ l1, p y = false := by
  intro l
  induction l with
  | nil =>
      intro x
      constructor
      · intro h; exact Option.noConfusion h
      · rintro ⟨l1, l2, hl, _, _⟩
        cases l1 <;> exact List.noConfusion hl
  | cons a l ih =>
      intro x
      by_cases ha : p a = true
      · rw [List.find?_cons_of_pos l ha]
        constructor
        · intro h
          injection h with h
          subst h
          exact ⟨[], l, rfl, ha, by intro y hy; cases hy⟩
        · rintro ⟨l1, l2, hl, hx, hfirst⟩
          cases l1 with
          | nil =>
              injection hl with h1 _
              rw [h1]
          | cons b l1 =>
              injection hl with h1 h2
              have hb : p b = false := hfirst b (List.mem_cons_self _ _)
              rw [← h1] at hb
              rw [ha] at hb
              exact Bool.noConfusion hb
      · have ha0 : p a = false := by
          cases hpa : p a with
          | false => rfl
          | true => exact absurd hpa ha
        rw [List.find?_cons_of_neg l ha]
        rw [ih x]
        constructor
        · rintro ⟨l1, l2, hl, hx, hfirst⟩
          refine ⟨a :: l1, l2, by rw [hl, List.cons_append], hx, ?_⟩
          intro y hy
          rcases List.mem_cons.1 hy with h | h
          · rw [h]
            exact ha0
          · exact hfirst y h
        · rintro ⟨l1, l2, hl, hx, hfirst⟩
          cases l1 with
          | nil =>
              injection hl with h1 h2
              rw [← h1] at hx
              rw [ha0] at hx
              exact Bool.noConfusion hx
          | cons b l1 =>
              injection hl with h1 h2
              exact ⟨l1, l2, h2, hx,
                fun y hy => hfirst y (List.mem_cons_of_mem _ hy)⟩

theorem findKeyCol_split (hh aliases : List String) (k : String) :
    findKeyCol hh aliases = some k ↔
      ∃ as1 a as2, aliases = as1 ++ a :: as2 ∧
        (∀ b ∈ as1, hh.find? (fun c => lowerStr c = lowerStr b) = none) ∧
        hh.find? (fun c => lowerStr c = lowerStr a) = some k := by
  induction aliases with
  | nil =>
      constructor
      · intro h; exact Option.noConfusion h
      · rintro ⟨as1, a, as2, hl, _, _⟩
        cases as1 <;> exact List.noConfusion hl
  | cons a as ih =>
      unfold findKeyCol at ih ⊢
      rw [List.findSome?_cons]
      cases hf : hh.find? (fun c => lowerStr c = lowerStr a) with
      | some v =>
          constructor
          · intro h
            have h' : some v = some k := h
            injection h' with h''
            refine ⟨[], a, as, rfl, fun b hb => absurd hb (List.not_mem_nil b), ?_⟩
            rw [hf, h'']
          · rintro ⟨as1, a', as2, hl, hnone, hsome⟩
            cases as1 with
            | nil =>
                injection hl with h1 h2
                rw [← h1] at hsome
                rw [hf] at hsome
                exact hsome
            | cons b as1 =>
                injection hl with h1 h2
                have hn : hh.find? (fun c => lowerStr c = lowerStr b) = none :=
                  hnone b (List.mem_cons_self _ _)
                rw [← h1] at hn
                rw [hf] at hn
                exact Option.noConfusion hn
      | none =>
          constructor
          · intro h
            rcases ih.1 h with ⟨as1, a', as2, hl, hnone, hsome⟩
            refine ⟨a :: as1, a', as2, by rw [hl, List.cons_append], ?_, hsome⟩
            intro b hb
            rcases List.mem_cons.1 hb with hba | hba
            · rw [hba]
              exact hf
            · exact hnone b hba
          · rintro ⟨as1, a', as2, hl, hnone, hsome⟩
            cases as1 with
            | nil =>
                injection hl with h1 h2
                rw [← h1] at hsome
                rw [hf] at hsome
                exact Option.noConfusion hsome
            | cons b as1 =>
                injection hl with h1 h2
                exact ih.2 ⟨as1, a', as2, h2,
                  fun b' hb' => hnone b' (List.mem_cons_of_mem _ hb'), hsome⟩

theorem findKeyCol_first (hh aliases : List String) (k : String) :
    findKeyCol hh aliases = some k ↔
      ∃ as1 a as2, aliases = as1 ++ a :: as2 ∧
        (∀ b ∈ as1, ∀ c ∈ hh, ¬(lowerStr c = lowerStr b)) ∧
        ∃ hs1 hs2, hh = hs1 ++ k :: hs2 ∧ lowerStr k = lowerStr a ∧
          ∀ c ∈ hs1, ¬(lowerStr c = lowerStr a) := by
  rw [findKeyCol_split]
  constructor
  · rintro ⟨as1, a, as2, hl, hnone, hsome⟩
    refine ⟨as1, a, as2, hl, ?_, ?_⟩
    · intro b hb c hc
      have := (List.find?_eq_none.1 (hnone b hb)) c hc
      simpa using this
    · rcases (find?_split _ hh k).1 hsome with ⟨hs1, hs2, hhl, hk, hfirst⟩
      refine ⟨hs1, hs2, hhl, by simpa using hk, ?_⟩
      intro c hc
      have := hfirst c hc
      simpa using this
  · rintro ⟨as1, a, as2, hl, hnone, hs1, hs2, hhl, hk, hfirst⟩
    refine ⟨as1, a, as2, hl, ?_, ?_⟩
    · intro b hb
      apply List.find?_eq_none.2
      intro c hc
      simpa using hnone b hb c hc
    · apply (find?_split _ hh k).2
      exact ⟨hs1, hs2, hhl, by simpa using hk,
        fun y hy => by simpa using hfirst y hy⟩

theorem dedupeLoop_id (key : Obj → String) (blocked : List String) :
    ∀ rows seen,
      List.Pairwise (fun a b => key a = "" ∨ key a ≠ key b) rows →
      (∀ r ∈ rows, key r ≠ "" →
        blocked.contains (key r) = false ∧ seen.contains (key r) = false) →
      dedupeLoop key blocked rows seen = rows := by
  intro rows
  induction rows with
  | nil => intro seen _ _; rfl
  | cons r rs ih =>
      intro seen hpw hfr
      rcases List.pairwise_cons.1 hpw with ⟨hr, hpw'⟩
      unfold dedupeLoop
      by_cases h1 : key r = ""
      · rw [if_pos h1,
          ih seen hpw' (fun q hq hkq => hfr q (List.mem_cons_of_mem _ hq) hkq)]
      · rw [if_neg h1]
        obtain ⟨hb, hs⟩ := hfr r (List.mem_cons_self _ _) h1
        have hcond : ¬((blocked.contains (key r) || seen.contains (key r)) = true) := by
          rw [hb, hs]
          simp
        rw [if_neg hcond]
        have hnext : ∀ q ∈ rs, key q ≠ "" →
            blocked.contains (key q) = false ∧
              (key r :: seen).contains (key q) = false := by
          intro q hq hkq
          obtain ⟨hbq, hsq⟩ := hfr q (List.mem_cons_of_mem _ hq) hkq
          refine ⟨hbq, ?_⟩
          rw [List.contains_cons]
          simp only [Bool.or_eq_false_iff]
          refine ⟨?_, hsq⟩
          simp only [beq_eq_false_iff_ne]
          intro he
          rcases hr q hq with h | h
          · exact h1 h
          · exact h he.symm
        rw [ih (key r :: seen) hpw' hnext]

theorem dedupeLoop_ne_nil (key : Obj → String) (r : Obj) (rs : List Obj) :
    dedupeLoop key [] (r :: rs) [] ≠ [] := by
  unfold dedupeLoop
  by_cases h1 : key r = ""
  · rw [if_pos h1]
    exact List.cons_ne_nil _ _
  · rw [if_neg h1]
    have hcond : ¬((List.contains ([] : List String) (key r) ||
        List.contains ([] : List String) (key r)) = true) := by
      intro hc
      exact Bool.noConfusion hc
    rw [if_neg hcond]
    exact List.cons_ne_nil _ _

theorem parse_stringify (hh : List String) (rows : List Obj)
    (hnd : hh.Nodup)
    (hhtrim : ∀ c ∈ hh, trimStr c = c)
    (hvtrim : ∀ r ∈ rows, ∀ v ∈ rowValues hh r, trimStr v = v)
    (hhne : emitLine hh ≠ "")
    (hrne : ∀ r ∈ rows, emitLine (rowValues hh r) ≠ "")
    (hrows : rows ≠ []) :
    parseCsv (stringifyCsv hh rows) =
      some (hh, rows.map (fun r => buildRow hh (rowValues hh r))) := by
  cases rows with
  | nil => exact absurd rfl hrows
  | cons r0 rs =>
      have hdata : (stringifyCsv hh (r0 :: rs)).data =
          '\uFEFF' :: (joinLines (hh :: (r0 :: rs).map (rowValues hh))).data := by
        unfold stringifyCsv
        rw [data_append]
        rfl
      have hstrip : stripBOM (stringifyCsv hh (r0 :: rs)) =
          (joinLines (hh :: (r0 :: rs).map (rowValues hh))).data := by
        unfold stripBOM
        rw [hdata]
        rfl
      have h1' : ∀ vs ∈ (hh :: (r0 :: rs).map (rowValues hh)), ∀ v ∈ vs,
          trimStr v = v := by
        intro vs hvs v hv
        rcases List.mem_cons.1 hvs with h | h
        · exact hhtrim v (h ▸ hv)
        · obtain ⟨r, hr, hrv⟩ := List.mem_map.1 h
          exact hvtrim r hr v (hrv ▸ hv)
      have h2' : ∀ vs ∈ (hh :: (r0 :: rs).map (rowValues hh)),
          emitLine vs ≠ "" := by
        intro vs hvs
        rcases List.mem_cons.1 hvs with h | h
        · exact h ▸ hhne
        · obtain ⟨r, hr, hrv⟩ := List.mem_map.1 h
          exact hrv ▸ hrne r hr
      have hlex := lex_lines (hh :: (r0 :: rs).map (rowValues hh)) h1' h2' []
      rw [List.reverse_nil, List.nil_append] at hlex
      have hmm : ∀ (l : List Obj), (l.map (rowValues hh)).map (buildRow hh) =
          l.map (fun r => buildRow hh (rowValues hh r)) := by
        intro l
        rw [List.map_map]
        rfl
      unfold parseCsv
      rw [hstrip, hlex]
      show some (objKeys (buildRow hh (rowValues hh r0)),
          ((r0 :: rs).map (rowValues hh)).map (buildRow hh)) =
        some (hh, (r0 :: rs).map (fun r => buildRow hh (rowValues hh r)))
      rw [hmm (r0 :: rs)]
      rw [show objKeys (buildRow hh (rowValues hh r0)) = hh from
        buildRow_keys hh (fun c => (objGet r0 c).getD "") hnd]

theorem deduplicateCsv_of_parse (raw : String) (aliases : List String)
    (hh : List String) (rows : List Obj) (k : String)
    (hparse : parseCsv raw = some (hh, rows))
    (hie : rows.isEmpty = false)
    (hkey : findKeyCol hh aliases = some k) :
    deduplicateCsv (some raw) aliases =
      some (stringifyCsv hh (dedupeCsvRows k rows [])) := by
  unfold deduplicateCsv
  show (match parseCsv raw with
      | none => some raw
      | some (header, rows) =>
        if rows.isEmpty then some raw
        else
          match findKeyCol header aliases with
          | none => some raw
          | some keyCol => some (stringifyCsv header (dedupeCsvRows keyCol rows []))) = _
  rw [hparse]
  show (if rows.isEmpty then some raw else
      match findKeyCol hh aliases with
      | none => some raw
      | some keyCol => some (stringifyCsv hh (dedupeCsvRows keyCol rows []))) = _
  rw [hie, if_neg Bool.false_ne_true, hkey]

/-- C8 (amended): deduplicateCsv is idempotent on well-behaved files: when
the file parses to a nonempty record set under a duplicate-free header
with trim-stable column names, every record's field values are
trim-stable, neither the header nor any record serializes to an empty
line, and some alias matches a header column, then the second run returns
the first run's output byte-identically.  The unqualified claim fails
because a record whose key and fields are all empty serializes to an empty
line, which skip_empty_lines drops on the second parse. -/
theorem deduplicateCsv_idempotent_amended (raw : String) (aliases : List String)
    (hh : List String) (rows : List Obj) (k : String)
    (hparse : parseCsv raw = some (hh, rows))
    (hrows : rows ≠ [])
    (hkey : findKeyCol hh aliases = some k)
    (hnd : hh.Nodup)
    (hhtrim : ∀ c ∈ hh, trimStr c = c)
    (hvtrim : ∀ r ∈ rows, ∀ v ∈ rowValues hh r, trimStr v = v)
    (hhne : emitLine hh ≠ "")
    (hrne : ∀ r ∈ rows, emitLine (rowValues hh r) ≠ "") :
    deduplicateCsv (deduplicateCsv (some raw) aliases) aliases =
      deduplicateCsv (some raw) aliases := by
  have hie : rows.isEmpty = false := by
    cases rows with
    | nil => exact absurd rfl hrows
    | cons a l => rfl
  have hfirst := deduplicateCsv_of_parse raw aliases hh rows k hparse hie hkey
  have hsub : List.Sublist (dedupeCsvRows k rows []) rows :=
    dedupeLoop_sublist (csvKeyOf k) [] rows []
  have hmem : ∀ r ∈ dedupeCsvRows k rows [], r ∈ rows := fun r hr => hsub.subset hr
  have hr1ne : dedupeCsvRows k rows [] ≠ [] := by
    cases rows with
    | nil => exact absurd rfl hrows
    | cons r0 rs => exact dedupeLoop_ne_nil (csvKeyOf k) r0 rs
  have hparse2 : parseCsv (stringifyCsv hh (dedupeCsvRows k rows [])) =
      some (hh, (dedupeCsvRows k rows []).map
        (fun r => buildRow hh (rowValues hh r))) :=
    parse_stringify hh (dedupeCsvRows k rows []) hnd hhtrim
      (fun r hr v hv => hvtrim r (hmem r hr) v hv) hhne
      (fun r hr => hrne r (hmem r hr)) hr1ne
  have hkmem : k ∈ hh := findKeyCol_mem hh aliases k hkey
  have hkphi : ∀ r : Obj,
      csvKeyOf k (buildRow hh (rowValues hh r)) = csvKeyOf k r :=
    fun r => csvKeyOf_buildRow hh hnd k hkmem r
  have hpw2 : List.Pairwise
      (fun a b => csvKeyOf k a = "" ∨ csvKeyOf k a ≠ csvKeyOf k b)
      ((dedupeCsvRows k rows []).map (fun r => buildRow hh (rowValues hh r))) := by
    rw [List.pairwise_map]
    refine List.Pairwise.imp ?_ (dedupeLoop_fresh_keys (csvKeyOf k) [] rows []).2
    intro a b hab
    rw [hkphi a, hkphi b]
    exact hab
  have hid : dedupeCsvRows k ((dedupeCsvRows k rows []).map
      (fun r => buildRow hh (rowValues hh r))) [] =
      (dedupeCsvRows k rows []).map (fun r => buildRow hh (rowValues hh r)) :=
    dedupeLoop_id (csvKeyOf k) [] _ [] hpw2 (fun q _ _ => ⟨rfl, rfl⟩)
  have hrv : ((dedupeCsvRows k rows []).map
      (fun r => buildRow hh (rowValues hh r))).map (rowValues hh) =
      (dedupeCsvRows k rows []).map (rowValues hh) := by
    rw [List.map_map]
    apply List.map_congr_left
    intro r _
    show rowValues hh (buildRow hh (rowValues hh r)) = rowValues hh r
    exact rowValues_buildRow hh hnd r
  have hstr : stringifyCsv hh ((dedupeCsvRows k rows []).map
      (fun r => buildRow hh (rowValues hh r))) =
      stringifyCsv hh (dedupeCsvRows k rows []) := by
    unfold stringifyCsv
    rw [hrv]
  have hie2 : ((dedupeCsvRows k rows []).map
      (fun r => buildRow hh (rowValues hh r))).isEmpty = false := by
    cases hq : dedupeCsvRows k rows [] with
    | nil => exact absurd hq hr1ne
    | cons a l => rfl
  have hsecond : deduplicateCsv
      (some (stringifyCsv hh (dedupeCsvRows k rows []))) aliases =
      some (stringifyCsv hh (dedupeCsvRows k rows [])) := by
    rw [deduplicateCsv_of_parse (stringifyCsv hh (dedupeCsvRows k rows []))
      aliases hh
      ((dedupeCsvRows k rows []).map (fun r => buildRow hh (rowValues hh r))) k
      hparse2 hie2 hkey]
    rw [hid, hstr]
  rw [hfirst, hsecond]

/-- Witness for the amended C8 theorem on a concrete three-record file
with one duplicated key. -/
theorem deduplicateCsv_idempotent_amended_witness :
    deduplicateCsv (deduplicateCsv (some "A\nx\ny\nx\n") ["A"]) ["A"] =
      deduplicateCsv (some "A\nx\ny\nx\n") ["A"] :=
  deduplicateCsv_idempotent_amended "A\nx\ny\nx\n" ["A"] ["A"]
    [[("A", "x")], [("A", "y")], [("A", "x")]] "A"
    (by decide) (by decide) (by decide) (by decide) (by decide)
    (by decide) (by decide) (by decide)

/-- C9: deduplicateCsv keys on the header spelling matched by the first
case-insensitively matching alias (and the first matching header column
for it), silently leaves the file unchanged when it is missing,
unparsable, has no data records, or no alias matches, and otherwise
rewrites it with the original header in its original order over the
records filtered in order so that every empty-key row is kept and exactly
the first row per distinct nonempty trimmed-lowercased key survives. -/
theorem deduplicateCsv_spec (aliases : List String) :
    deduplicateCsv none aliases = none ∧
    (∀ raw, parseCsv raw = none → deduplicateCsv (some raw) aliases = some raw) ∧
    (∀ raw hh, parseCsv raw = some (hh, []) →
      deduplicateCsv (some raw) aliases = some raw) ∧
    (∀ raw hh rows, parseCsv raw = some (hh, rows) →
      findKeyCol hh aliases = none →
      deduplicateCsv (some raw) aliases = some raw) ∧
    (∀ hh k, findKeyCol hh aliases = some k →
      ∃ as1 a as2, aliases = as1 ++ a :: as2 ∧
        (∀ b ∈ as1, ∀ c ∈ hh, ¬(lowerStr c = lowerStr b)) ∧
        ∃ hs1 hs2, hh = hs1 ++ k :: hs2 ∧ lowerStr k = lowerStr a ∧
          ∀ c ∈ hs1, ¬(lowerStr c = lowerStr a)) ∧
    (∀ raw hh rows k, parseCsv raw = some (hh, rows) → rows ≠ [] →
      findKeyCol hh aliases = some k →
      deduplicateCsv (some raw) aliases =
        some (stringifyCsv hh (dedupeCsvRows k rows [])) ∧
      List.Sublist (dedupeCsvRows k rows []) rows ∧
      (dedupeCsvRows k rows []).filter (fun r => csvKeyOf k r == "") =
        rows.filter (fun r => csvKeyOf k r == "") ∧
      List.Pairwise (fun a b => csvKeyOf k a = "" ∨ csvKeyOf k a ≠ csvKeyOf k b)
        (dedupeCsvRows k rows []) ∧
      (∀ rs1 r rs2, rows = rs1 ++ r :: rs2 → csvKeyOf k r ≠ "" →
        (∀ q ∈ rs1, csvKeyOf k q ≠ csvKeyOf k r) →
        r ∈ dedupeCsvRows k rows [])) := by
  refine ⟨rfl, ?_, ?_, ?_, ?_, ?_⟩
  · intro raw hp
    unfold deduplicateCsv
    show (match parseCsv raw with
      | none => some raw
      | some (header, rows) =>
        if rows.isEmpty then some raw
        else
          match findKeyCol header aliases with
          | none => some raw
          | some keyCol =>
              some (stringifyCsv header (dedupeCsvRows keyCol rows []))) =
      some raw
    rw [hp]
  · intro raw hh hp
    unfold deduplicateCsv
    show (match parseCsv raw with
      | none => some raw
      | some (header, rows) =>
        if rows.isEmpty then some raw
        else
          match findKeyCol header aliases with
          | none => some raw
          | some keyCol =>
              some (stringifyCsv header (dedupeCsvRows keyCol rows []))) =
      some raw
    rw [hp]
    rfl
  · intro raw hh rows hp hk
    unfold deduplicateCsv
    show (match parseCsv raw with
      | none => some raw
      | some (header, rows) =>
        if rows.isEmpty then some raw
        else
          match findKeyCol header aliases with
          | none => some raw
          | some keyCol =>
              some (stringifyCsv header (dedupeCsvRows keyCol rows []))) =
      some raw
    rw [hp]
    show (if rows.isEmpty then some raw else
      match findKeyCol hh aliases with
      | none => some raw
      | some keyCol => some (stringifyCsv hh (dedupeCsvRows keyCol rows []))) =
      some raw
    by_cases hie : rows.isEmpty = true
    · rw [if_pos hie]
    · rw [if_neg hie, hk]
  · intro hh k hk
    exact (findKeyCol_first hh aliases k).1 hk
  · intro raw hh rows k hp hne hk
    have hie : rows.isEmpty = false := by
      cases rows with
      | nil => exact absurd rfl hne
      | cons a l => rfl
    refine ⟨deduplicateCsv_of_parse raw aliases hh rows k hp hie hk,
      dedupeLoop_sublist (csvKeyOf k) [] rows [],
      dedupeLoop_keeps_empty (csvKeyOf k) [] rows [],
      (dedupeLoop_fresh_keys (csvKeyOf k) [] rows []).2, ?_⟩
    intro rs1 r rs2 hsplit hkr hfirst
    rw [hsplit]
    exact dedupeLoop_first_kept (csvKeyOf k) [] rs1 r rs2 [] hkr rfl rfl hfirst

/-- Witness: the C9 theorem evaluated on a concrete file with one
duplicated key, checking the rewritten bytes. -/
theorem deduplicateCsv_spec_witness :
    deduplicateCsv (some "A\nx\ny\nx\n") ["A"] = some "\uFEFFA\nx\ny\n" := by
  have h := ((deduplicateCsv_spec ["A"]).2.2.2.2.2 "A\nx\ny\nx\n" ["A"]
    [[("A", "x")], [("A", "y")], [("A", "x")]] "A"
    (by decide) (by decide) (by decide)).1
  rw [h]
  decide

end SalesNav
